import Mathlib

/-!
# getWebpackConfig

A shallow embedding of `scripts/getWebpackConfig.js`: the function that assembles the
webpack configuration object from an options bag `{entry, exampleEntry, env, task}`,
three `npm_package_*` environment variables, `process.env.NODE_ENV`, the working
directory and the script directory.

JavaScript values that may be `undefined` are `Option`s (`none` is `undefined`), a thrown
exception is `Except.error`, objects are association lists in property order, regular
expression literals are kept as their source text, and `new P(args)` for a plugin class of
an external package is a constructor of `Plugin` holding the arguments.  The functions
of external packages and of the repository's `./util` module, whose code is not part of
the script, are fields of `Host`.
-/

namespace GetWebpackConfig

/-! ## JavaScript built-ins used by the script -/

/-- Template-literal interpolation of a string-or-undefined value: `undefined` is rendered
as the text `undefined`. -/
def interpolate : Option String → String
  | some s => s
  | none => "undefined"

/-- Lower-case hexadecimal digit of a number below 16. -/
def hexDigit (n : Nat) : Char :=
  if n < 10 then Char.ofNat (48 + n) else Char.ofNat (87 + n)

/-- The escape of one character in `JSON.stringify` of a string (QuoteJSONString): the
short escapes for backspace, tab, line feed, form feed, carriage return, the double quote
and the backslash; a four-digit unicode escape for the other characters below U+0020; the
character itself otherwise. -/
def quoteChar (c : Char) : List Char :=
  if c.toNat = 8 then [Char.ofNat 92, 'b']
  else if c.toNat = 9 then [Char.ofNat 92, 't']
  else if c.toNat = 10 then [Char.ofNat 92, 'n']
  else if c.toNat = 12 then [Char.ofNat 92, 'f']
  else if c.toNat = 13 then [Char.ofNat 92, 'r']
  else if c.toNat = 34 then [Char.ofNat 92, Char.ofNat 34]
  else if c.toNat = 92 then [Char.ofNat 92, Char.ofNat 92]
  else if c.toNat < 32 then
    [Char.ofNat 92, 'u', '0', '0', hexDigit (c.toNat / 16), hexDigit (c.toNat % 16)]
  else [c]

/-- The characters of a string with every character escaped as in a JSON string. -/
def quoteChars : List Char → List Char
  | [] => []
  | c :: cs => quoteChar c ++ quoteChars cs

/-- The value of `JSON.stringify(s)` for a string `s`: the escaped characters between
double quotes. -/
def quoteJSONString (s : String) : String :=
  ⟨Char.ofNat 34 :: (quoteChars s.data ++ [Char.ofNat 34])⟩

/-- The value of `JSON.stringify(v)` for a string-or-undefined `v`: `undefined` is mapped
to `undefined`. -/
def jsonStringify : Option String → Option String
  | some s => some (quoteJSONString s)
  | none => none

/-- The elements of a JSON array separated by commas. -/
def joinComma : List String → String
  | [] => ""
  | [s] => s
  | s :: t :: rest => s ++ "," ++ joinComma (t :: rest)

/-- The value of `JSON.stringify(a)` for an array `a` of strings. -/
def jsonStringifyArray (a : List String) : String :=
  "[" ++ joinComma (a.map quoteJSONString) ++ "]"

/-- The value of a hexadecimal digit. -/
def hexValue (c : Char) : Option Nat :=
  if 48 ≤ c.toNat ∧ c.toNat ≤ 57 then some (c.toNat - 48)
  else if 97 ≤ c.toNat ∧ c.toNat ≤ 102 then some (c.toNat - 87)
  else if 65 ≤ c.toNat ∧ c.toNat ≤ 70 then some (c.toNat - 55)
  else none

/-- The character a short escape of a JSON string stands for. -/
def escapeChar (e : Char) : Option Char :=
  if e = 'b' then some (Char.ofNat 8)
  else if e = 't' then some (Char.ofNat 9)
  else if e = 'n' then some (Char.ofNat 10)
  else if e = 'f' then some (Char.ofNat 12)
  else if e = 'r' then some (Char.ofNat 13)
  else if e.toNat = 34 then some (Char.ofNat 34)
  else if e.toNat = 92 then some (Char.ofNat 92)
  else if e = '/' then some '/'
  else none

/-- The character of a four-digit unicode escape; an escape of a surrogate code unit, which
`JSON.stringify` writes for a lone surrogate only, is not read. -/
def unicodeEscape (h1 h2 h3 h4 : Char) : Option Char :=
  match hexValue h1, hexValue h2, hexValue h3, hexValue h4 with
  | some a, some b, some c, some d =>
    let v := ((a * 16 + b) * 16 + c) * 16 + d
    if 55296 ≤ v ∧ v ≤ 57343 then none else some (Char.ofNat v)
  | _, _, _, _ => none

/-- The characters of a JSON string literal after its opening quote, read as `JSON.parse`
reads them up to the closing quote, which must end the text. -/
def unquoteChars : List Char → Option (List Char)
  | [] => none
  | c :: cs =>
    if c.toNat = 34 then (if cs = [] then some [] else none)
    else if c.toNat = 92 then
      match cs with
      | [] => none
      | e :: rest =>
        if e = 'u' then
          match rest with
          | h1 :: h2 :: h3 :: h4 :: rest2 =>
            match unicodeEscape h1 h2 h3 h4, unquoteChars rest2 with
            | some x, some xs => some (x :: xs)
            | _, _ => none
          | _ => none
        else
          match escapeChar e, unquoteChars rest with
          | some x, some xs => some (x :: xs)
          | _, _ => none
    else if c.toNat < 32 then none
    else
      match unquoteChars cs with
      | some xs => some (c :: xs)
      | none => none

/-- The value of `JSON.parse(text)` for a text that is one JSON string literal; `none`
when the text is not one. -/
def unquoteJSONString (text : String) : Option String :=
  match text.data with
  | [] => none
  | q :: rest => if q.toNat = 34 then (unquoteChars rest).map String.mk else none

/-- The UTF-16 code units of one character. -/
def charUnits (c : Char) : List Nat :=
  if c.toNat < 65536 then [c.toNat]
  else [55296 + (c.toNat - 65536) / 1024, 56320 + (c.toNat - 65536) % 1024]

/-- The UTF-16 code units of a list of characters. -/
def unitsOf : List Char → List Nat
  | [] => []
  | c :: cs => charUnits c ++ unitsOf cs

/-- The UTF-16 code units of a string, the sequence JavaScript compares strings by. -/
def codeUnits (s : String) : List Nat := unitsOf s.data

/-- Lexicographic "at most" on code-unit sequences. -/
def lexLe : List Nat → List Nat → Bool
  | [], _ => true
  | _ :: _, [] => false
  | a :: as, b :: bs => decide (a < b) || (decide (a = b) && lexLe as bs)

/-- The order of `Array.prototype.sort` without a comparator on strings: `a` may stand
before `b` when `a` is at most `b` as a sequence of UTF-16 code units. -/
def cuLe (a b : String) : Prop := lexLe (codeUnits a) (codeUnits b) = true

instance cuLeDecidable : DecidableRel cuLe := fun a b =>
  inferInstanceAs (Decidable (lexLe (codeUnits a) (codeUnits b) = true))

/-- The value of `a.sort()` on an array of strings.  The result of the built-in is the
arrangement of the elements in ascending code-unit order; elements that compare equal are
equal strings, so every sorting algorithm yields the same array. -/
def jsSort (a : List String) : List String := a.insertionSort cuLe

/-- The value of `v.match(/^([^\/]+)\/index$/)[1]` on the characters of `v`: the longest
run of non-slash characters at the start must be non-empty and be followed by exactly
`/index`; the run is group 1.  `none` is a failed match, on which indexing the `null`
result throws. -/
def matchIndexChars (cs : List Char) : Option (List Char) :=
  let dir := cs.takeWhile (fun c => c != '/')
  let rest := cs.dropWhile (fun c => c != '/')
  if dir ≠ [] ∧ rest = ['/', 'i', 'n', 'd', 'e', 'x'] then some dir else none

/-- The value of `v.match(re)[1]` for the example-key pattern, `none` when `v` does not
match. -/
def matchIndex (v : String) : Option String :=
  (matchIndexChars v.data).map String.mk

/-! ## Node's `path.join` on a POSIX platform -/

/-- The segments of a path between its slashes. -/
def splitSlash : List Char → List (List Char)
  | [] => [[]]
  | c :: cs =>
    if c = '/' then [] :: splitSlash cs
    else
      match splitSlash cs with
      | [] => [[c]]
      | seg :: segs => (c :: seg) :: segs

/-- One step of `normalizeString`: the stack of kept segments, innermost first, after
reading one segment.  Empty segments and `.` are dropped, `..` removes the last kept
segment unless there is none or it is `..` itself, in which case `..` is kept when the
path may climb above its start. -/
def normStep (allowAboveRoot : Bool) (stack : List (List Char)) (seg : List Char) :
    List (List Char) :=
  if seg = [] ∨ seg = ['.'] then stack
  else if seg = ['.', '.'] then
    match stack with
    | [] => if allowAboveRoot then [seg] else []
    | top :: below =>
      if top = ['.', '.'] then (if allowAboveRoot then seg :: stack else stack) else below
  else seg :: stack

/-- The segments kept by `normalizeString`, outermost first. -/
def normSegs (allowAboveRoot : Bool) (segs : List (List Char)) : List (List Char) :=
  (segs.foldl (normStep allowAboveRoot) []).reverse

/-- Segments joined by slashes. -/
def joinSlash : List (List Char) → List Char
  | [] => []
  | [s] => s
  | s :: t :: rest => s ++ '/' :: joinSlash (t :: rest)

/-- The value of `path.posix.normalize(p)`. -/
def posixNormalize (p : List Char) : List Char :=
  if p = [] then ['.']
  else
    let isAbsolute := p.head? = some '/'
    let trailing := p.getLast? = some '/'
    let body := joinSlash (normSegs (!decide isAbsolute) (splitSlash p))
    if body = [] then
      if isAbsolute then ['/'] else if trailing then ['.', '/'] else ['.']
    else
      let body := if trailing then body ++ ['/'] else body
      if isAbsolute then '/' :: body else body

/-- The value of `path.posix.join(a, b)`: the non-empty arguments joined by a slash, then
normalised. -/
def posixJoin (a b : String) : String :=
  if a.data = [] then
    if b.data = [] then "." else ⟨posixNormalize b.data⟩
  else if b.data = [] then ⟨posixNormalize a.data⟩
  else ⟨posixNormalize (a.data ++ '/' :: b.data)⟩

/-- A segment that `normalizeString` keeps as it is: not empty, not `.` and not `..`. -/
def OrdinarySegment (seg : List Char) : Prop :=
  seg ≠ [] ∧ seg ≠ ['.'] ∧ seg ≠ ['.', '.']

instance ordinarySegmentDecidable (seg : List Char) : Decidable (OrdinarySegment seg) :=
  inferInstanceAs (Decidable (seg ≠ [] ∧ seg ≠ ['.'] ∧ seg ≠ ['.', '.']))

/-- A name whose segments between slashes are all ordinary, as the segments of every
valid npm package name, scoped or not, are. -/
def PlainName (name : String) : Prop :=
  ∀ seg ∈ splitSlash name.data, OrdinarySegment seg

instance plainNameDecidable (name : String) : Decidable (PlainName name) :=
  inferInstanceAs (Decidable (∀ seg ∈ splitSlash name.data, OrdinarySegment seg))

/-! ## Data model -/

/-- What can make the script throw. -/
inductive Failure where
  /-- The call `util.dashToUpperCamelCase(packageName)` threw. -/
  | utilThrew
  /-- The call `parseGithubUrl(packageRepositoryUrl)` threw. -/
  | parseThrew
  /-- The property `repo` was read from `null`: the URL did not parse. -/
  | repoOfNull
  /-- The call `Object.keys(exampleEntry)` was made on `undefined`. -/
  | keysOfUndefined
  /-- A key did not match the pattern, and `[1]` was read from `null`. -/
  | matchOfNull
  deriving DecidableEq, Repr

/-- The object returned by `parseGithubUrl`, of which the script reads `repo` only. -/
structure Repo where
  repo : Option String
  deriving DecidableEq, Repr

/-- The code the script calls and does not contain.  The three functions are taken as
functions of their arguments: the same call gives the same outcome in every invocation. -/
structure Host where
  /-- The function `path.join` of Node on two arguments. -/
  pathJoin : String → String → String
  /-- The function `parseGithubUrl` of the package `parse-github-url`: it throws, or
  returns `null` (`none`) or an object. -/
  parseGithubUrl : Option String → Except Unit (Option Repo)
  /-- The function `util.dashToUpperCamelCase` of the repository's `./util` module: it
  throws or returns a string. -/
  dashToUpperCamelCase : Option String → Except Unit String

/-- The ambient values read when the module is loaded. -/
structure Ambient where
  /-- The variable `process.env.npm_package_name`. -/
  packageName : Option String
  /-- The variable `process.env.npm_package_version`. -/
  packageVersion : Option String
  /-- The variable `process.env.npm_package_repository_url`. -/
  packageRepositoryUrl : Option String
  /-- The variable `process.env.NODE_ENV`. -/
  processNodeEnv : Option String
  /-- The working directory `process.cwd()`. -/
  root : String
  /-- The directory of the script, `__dirname`. -/
  dirname : String
  deriving DecidableEq, Repr

/-- The environment descriptor `options.env`. -/
structure Env where
  NODE_ENV : Option String
  deriving DecidableEq, Repr

/-- The options bag, with `env` an object.  A mapping is the list of its properties in
enumeration order, the order of `for ... in` and of `Object.keys`; `exampleEntry` is
optional, `none` being `undefined`, and `task` may be any string or `undefined`. -/
structure Options where
  entry : List (String × String)
  exampleEntry : Option (List (String × String))
  env : Env
  task : Option String
  deriving DecidableEq, Repr

/-- A literal in a loader's options. -/
inductive Lit where
  | bool (b : Bool)
  | num (n : Nat)
  | str (s : String)
  deriving DecidableEq, Repr

/-- A loader object `{loader, options}`; `options` is `none` when the property is absent. -/
structure Loader where
  loader : String
  options : Option (List (String × Lit))
  deriving DecidableEq, Repr

/-- An element of a `use` array: a loader name or a loader object. -/
inductive UseItem where
  | name (s : String)
  | object (l : Loader)
  deriving DecidableEq, Repr

/-- The `use` property of a rule: an array, or the value of
`ExtractTextPlugin.extract({fallback, use})`. -/
inductive Use where
  | array (items : List UseItem)
  | extract (fallback : String) (use : List Loader)
  deriving DecidableEq, Repr

/-- A rule of `config.module.rules`; `test` and `exclude` hold the source of the regular
expression. -/
structure Rule where
  test : String
  exclude : Option String
  use : Use
  deriving DecidableEq, Repr

/-- The plugin objects the script constructs, each with its constructor arguments. -/
inductive Plugin where
  | DefinePlugin (definitions : List (String × Option String))
  | ProgressBarPlugin
  | UglifyJsPlugin (sourceMap : Bool) (compressWarnings : Bool)
  | ExtractTextPlugin (filename : String)
  | HotModuleReplacementPlugin
  | NamedModulesPlugin
  | HtmlWebpackPlugin (chunks : List String) (filename : String) (template : String)
  deriving DecidableEq, Repr

/-- The object `config.output`; absent properties are `none`. -/
structure Output where
  filename : String
  path : String
  publicPath : Option String
  library : Option String
  libraryTarget : Option String
  deriving DecidableEq, Repr

/-- One entry of `config.externals`. -/
structure External where
  root : String
  commonjs : String
  commonjs2 : String
  amd : String
  deriving DecidableEq, Repr

/-- The object `config.devServer`. -/
structure DevServer where
  compress : Bool
  clientLogLevel : String
  contentBase : String
  hot : Bool
  port : Nat
  quiet : Bool
  stats : String
  watchOptionsIgnored : String
  overlay : Bool
  deriving DecidableEq, Repr

/-- The configuration object the script returns. -/
structure Config where
  entry : List (String × String)
  context : String
  resolveExtensions : List String
  nodeBuffer : Bool
  plugins : List Plugin
  rules : List Rule
  output : Output
  externals : Option (List (String × External))
  devtool : String
  devServer : Option DevServer
  deriving DecidableEq, Repr

/-! ## The script -/

/-- The test `env.NODE_ENV === 'production'`. -/
def isProduction (O : Options) : Bool := decide (O.env.NODE_ENV = some "production")

/-- The test `env.NODE_ENV === 'development'`. -/
def isDevelopment (O : Options) : Bool := decide (O.env.NODE_ENV = some "development")

/-- The test `task === 'examples'`. -/
def isExamples (O : Options) : Bool := decide (O.task = some "examples")

/-- The object assigned to `config.output` (lines 38-60). -/
def output (H : Host) (A : Ambient) (O : Options) : Except Failure Output :=
  if isExamples O then
    if isProduction O then
      .ok { filename := "[name]-[hash:16].js"
            path := H.pathJoin A.root ("build/" ++ interpolate A.packageName)
            publicPath := some ("/" ++ interpolate A.packageName ++ "/")
            library := none
            libraryTarget := none }
    else
      .ok { filename := "[name].js"
            path := H.pathJoin A.root "build"
            publicPath := some "/"
            library := none
            libraryTarget := none }
  else
    match H.dashToUpperCamelCase A.packageName with
    | .error _ => .error .utilThrew
    | .ok library =>
      .ok { filename := interpolate A.packageName ++ ".js"
            path := H.pathJoin A.root "dist"
            publicPath := none
            library := some library
            libraryTarget := some "umd" }

/-- The value of `config.externals` (lines 62-79); `none` when it is not assigned. -/
def externals (O : Options) : Option (List (String × External)) :=
  if isProduction O then
    if !isExamples O then
      some [("react",
              { root := "React", commonjs := "react", commonjs2 := "react", amd := "react" }),
            ("react-dom",
              { root := "ReactDOM", commonjs := "react-dom", commonjs2 := "react-dom",
                amd := "react-dom" })]
    else none
  else none

/-- The value of `config.devtool` (lines 81-85). -/
def devtool (O : Options) : String :=
  if isProduction O then "source-map" else "eval-source-map"

/-- The value of `repo.repo ? ("https://github.com/" + repo.repo) : ""` (line 95): the
empty string when `repo.repo` is `null` or empty. -/
def repository (repo : Repo) : String :=
  match repo.repo with
  | none => ""
  | some r => if r.data = [] then "" else "https://github.com/" ++ r

/-- The value of `keys.map(v => v.match(re)[1])` (line 101): group 1 of every key in
order, or the failure at the first key that does not match. -/
def matchAll : List String → Except Failure (List String)
  | [] => .ok []
  | v :: vs =>
    match matchIndex v with
    | none => .error .matchOfNull
    | some dir =>
      match matchAll vs with
      | .error e => .error e
      | .ok dirs => .ok (dir :: dirs)

/-- The array `exampleDirs` (lines 99-102): the sorted directory names of the keys of
`exampleEntry`. -/
def exampleDirs (O : Options) : Except Failure (List String) :=
  match O.exampleEntry with
  | none => .error .keysOfUndefined
  | some kvs =>
    match matchAll (kvs.map Prod.fst) with
    | .error e => .error e
    | .ok dirs => .ok (jsSort dirs)

/-- The object literal assigned to `definedVar` (lines 91-96), as its properties in order;
a `none` value is a property whose value is `undefined`. -/
def definedBase (A : Ambient) (repo : Repo) : List (String × Option String) :=
  [("process.env.NODE_ENV", jsonStringify A.processNodeEnv),
   ("packageName", jsonStringify A.packageName),
   ("packageVersion", jsonStringify A.packageVersion),
   ("repository", jsonStringify (some (repository repo)))]

/-- The object `definedVar` handed to the `DefinePlugin` (lines 90-104): the literal, with
`exampleDirs` added for the examples task. -/
def definedVar (H : Host) (A : Ambient) (O : Options) :
    Except Failure (List (String × Option String)) :=
  match H.parseGithubUrl A.packageRepositoryUrl with
  | .error _ => .error .parseThrew
  | .ok none => .error .repoOfNull
  | .ok (some repo) =>
    if isExamples O then
      match exampleDirs O with
      | .error e => .error e
      | .ok dirs =>
        .ok (definedBase A repo ++ [("exampleDirs", some (jsonStringifyArray dirs))])
    else .ok (definedBase A repo)

/-- The value of `cssFilename` (lines 112-126). -/
def cssFilename (A : Ambient) (O : Options) : String :=
  if isExamples O then "[name]-[contenthash:16].css"
  else interpolate A.packageName ++ ".css"

/-- The array `examplesHtmls` (lines 136-144): one `HtmlWebpackPlugin` per key of `entry`. -/
def examplesHtmls (O : Options) : List Plugin :=
  O.entry.map fun kv =>
    Plugin.HtmlWebpackPlugin [kv.1] (kv.1 ++ ".html") "examples/entry_template.html"

/-- The array `config.plugins` after all the pushes (lines 106-146), given `definedVar`. -/
def plugins (A : Ambient) (O : Options) (dv : List (String × Option String)) : List Plugin :=
  [Plugin.DefinePlugin dv, Plugin.ProgressBarPlugin]
  ++ (if isProduction O then
        (if isExamples O then [Plugin.UglifyJsPlugin true false] else [])
        ++ [Plugin.ExtractTextPlugin (cssFilename A O)]
      else [Plugin.HotModuleReplacementPlugin, Plugin.NamedModulesPlugin])
  ++ (if isExamples O then examplesHtmls O else [])

/-- The function `extractCSS` (lines 185-194). -/
def extractCSS (O : Options) (loaders : List Loader) : Use :=
  if isProduction O then Use.extract "style-loader" loaders
  else Use.array (UseItem.name "style-loader" :: loaders.map UseItem.object)

/-- The loader list of the `.css` rule. -/
def cssLoaders : List Loader :=
  [{ loader := "css-loader"
     options := some [("sourceMap", .bool true), ("minimize", .bool false),
                      ("importLoaders", .num 0)] },
   { loader := "postcss-loader", options := none }]

/-- The loader list of the `.less` rule. -/
def lessLoaders : List Loader :=
  [{ loader := "css-loader", options := some [("sourceMap", .bool true)] },
   { loader := "postcss-loader", options := none },
   { loader := "less-loader", options := some [("sourceMap", .bool true)] }]

/-- The loader list of the `.sass`/`.scss` rule. -/
def sassLoaders : List Loader :=
  [{ loader := "css-loader", options := some [("sourceMap", .bool true)] },
   { loader := "postcss-loader", options := none },
   { loader := "sass-loader"
     options := some [("sourceMap", .bool true), ("outputStyle", .str "expanded")] }]

/-- The loader list of the `.styl` rule. -/
def stylLoaders : List Loader :=
  [{ loader := "css-loader", options := some [("sourceMap", .bool true)] },
   { loader := "postcss-loader", options := none },
   { loader := "stylus-loader", options := some [("sourceMap", .bool true)] }]

/-- A font rule served by `url-loader` with the given mime type. -/
def urlFontRule (test mimetype : String) : Rule :=
  { test := test
    exclude := none
    use := .array [.object
      { loader := "url-loader"
        options := some [("prefix", .str "fonts/"), ("name", .str "[path][name].[ext]"),
                         ("limit", .num 10000), ("mimetype", .str mimetype)] }] }

/-- The array `config.module.rules` after all the pushes (lines 152-379). -/
def rules (O : Options) : List Rule :=
  [ { test := "\\.jsx?$"
      exclude := some "node_modules"
      use := .array [.object
        { loader := "babel-loader", options := some [("compact", .bool false)] }] },
    { test := "\\.md$"
      exclude := none
      use := .array [.object { loader := "html-loader", options := none },
                     .object { loader := "markdown-loader", options := some [] }] },
    { test := "\\.css$", exclude := none, use := extractCSS O cssLoaders },
    { test := "\\.less$", exclude := none, use := extractCSS O lessLoaders },
    { test := "\\.(sass|scss)$", exclude := none, use := extractCSS O sassLoaders },
    { test := "\\.styl$", exclude := none, use := extractCSS O stylLoaders },
    { test := "\\.(png|jpg|gif)$"
      exclude := none
      use := .array [.object
        { loader := "url-loader", options := some [("limit", .num 8192)] }] },
    urlFontRule "\\.svg(\\?.*)?$" "application/svg+xml",
    { test := "\\.eot(\\?.*)?$"
      exclude := none
      use := .array [.object
        { loader := "file-loader"
          options := some [("prefix", .str "fonts/"),
                           ("name", .str "[path][name].[ext]")] }] },
    urlFontRule "\\.woff(\\?.*)?$" "application/font-woff",
    urlFontRule "\\.woff2(\\?.*)?$" "application/font-woff2",
    urlFontRule "\\.otf(\\?.*)?$" "font/opentype",
    urlFontRule "\\.ttf(\\?.*)?$" "application/octet-strea" ]

/-- The value of `config.devServer` (lines 381-395); `none` when it is not assigned. -/
def devServer (H : Host) (A : Ambient) (O : Options) : Option DevServer :=
  if isDevelopment O then
    some { compress := true
           clientLogLevel := "none"
           contentBase := H.pathJoin A.dirname "build"
           hot := true
           port := 9000
           quiet := true
           stats := "errors-only"
           watchOptionsIgnored := "node_modules"
           overlay := true }
  else none

/-- The exported function: the configuration returned for an options bag, or the failure
it throws.  The statements that can throw run in the order of the script: the `output`
block, then `parseGithubUrl` and `definedVar`, then the example keys. -/
def getWebpackConfig (H : Host) (A : Ambient) (O : Options) : Except Failure Config :=
  match output H A O with
  | .error e => .error e
  | .ok out =>
    match definedVar H A O with
    | .error e => .error e
    | .ok dv =>
      .ok { entry := O.entry
            context := A.root
            resolveExtensions := [".js", ".jsx"]
            nodeBuffer := false
            plugins := plugins A O dv
            rules := rules O
            output := out
            externals := externals O
            devtool := devtool O
            devServer := devServer H A O }

/-! ## Observations on a configuration -/

/-- Two `exampleEntry` values with the same keys: both `undefined`, or two mappings whose
lists of keys are rearrangements of one another, whatever the values are. -/
def SameKeys : Option (List (String × String)) → Option (List (String × String)) → Prop
  | none, none => True
  | some kvs, some kvs2 => (kvs.map Prod.fst).Perm (kvs2.map Prod.fst)
  | _, _ => False


/-- The naming pattern of an example key, in words: `key` is `dir` followed by `/index`,
where `dir` is one or more characters none of which is a slash. -/
def IsIndexKey (dir key : String) : Prop :=
  dir.data ≠ [] ∧ '/' ∉ dir.data ∧ key = dir ++ "/index"

/-- The definitions object of the `DefinePlugin` of a configuration, the first plugin
pushed. -/
def Config.definitions (cfg : Config) : Option (List (String × Option String)) :=
  match cfg.plugins.head? with
  | some (Plugin.DefinePlugin dv) => some dv
  | _ => none

/-- The value of a property of an object: `none` when the object has no such property,
`some none` when its value is `undefined`. -/
def property (obj : List (String × Option String)) (key : String) : Option (Option String) :=
  obj.lookup key


/-- The loader objects of a `use` value: the objects of an array, or the list handed to
`ExtractTextPlugin.extract`. -/
def Use.loaders : Use → List Loader
  | .array items => items.filterMap fun item =>
      match item with
      | .object l => some l
      | .name _ => none
  | .extract _ use => use

/-- The file patterns of the four stylesheet rules. -/
def stylesheetTests : List String :=
  ["\\.css$", "\\.less$", "\\.(sass|scss)$", "\\.styl$"]

/-- The file patterns of the thirteen rules, in order. -/
def ruleTests : List String :=
  ["\\.jsx?$", "\\.md$", "\\.css$", "\\.less$", "\\.(sass|scss)$", "\\.styl$",
   "\\.(png|jpg|gif)$", "\\.svg(\\?.*)?$", "\\.eot(\\?.*)?$", "\\.woff(\\?.*)?$",
   "\\.woff2(\\?.*)?$", "\\.otf(\\?.*)?$", "\\.ttf(\\?.*)?$"]

/-- The loader names of the thirteen rules, in order. -/
def ruleLoaderNames : List (List String) :=
  [["babel-loader"], ["html-loader", "markdown-loader"],
   ["css-loader", "postcss-loader"], ["css-loader", "postcss-loader", "less-loader"],
   ["css-loader", "postcss-loader", "sass-loader"],
   ["css-loader", "postcss-loader", "stylus-loader"],
   ["url-loader"], ["url-loader"], ["file-loader"], ["url-loader"], ["url-loader"],
   ["url-loader"], ["url-loader"]]

/-- The pattern, exclusion and loader objects of a rule, without the wrapping of the
stylesheet chains. -/
def Rule.content (r : Rule) : String × Option String × List Loader :=
  (r.test, r.exclude, r.use.loaders)

/-! ## A concrete host and concrete invocations -/

/-- A host for evaluating the script on concrete inputs: POSIX `path.join`, a URL parser
that knows the repository's own URL and returns `null` for an unset URL, and a
`dashToUpperCamelCase` that knows the repository's own package name. -/
def sampleHost : Host where
  pathJoin := posixJoin
  parseGithubUrl := fun url =>
    if url = some "https://github.com/Alex1990/react-ui-component-starter" then
      .ok (some { repo := some "Alex1990/react-ui-component-starter" })
    else .ok none
  dashToUpperCamelCase := fun name =>
    if name = some "react-ui-component-starter" then .ok "ReactUiComponentStarter"
    else .error ()

/-- The ambient values of a run started by npm in the repository. -/
def sampleAmbient : Ambient where
  packageName := some "react-ui-component-starter"
  packageVersion := some "0.1.0"
  packageRepositoryUrl := some "https://github.com/Alex1990/react-ui-component-starter"
  processNodeEnv := some "production"
  root := "/work"
  dirname := "/work/scripts"

/-- An options bag with one library entry and two example entries. -/
def sampleOptions (task nodeEnv : Option String) : Options where
  entry := [("index", "./src/index.js")]
  exampleEntry := some [("modal/index", "./examples/modal/index.js"),
                        ("basic/index", "./examples/basic/index.js")]
  env := { NODE_ENV := nodeEnv }
  task := task

/-! ## Shape of a returned configuration -/

/-- A returned configuration is assembled from the `output` block and `definedVar`, both of
which were computed without a failure. -/
theorem getWebpackConfig_ok {H : Host} {A : Ambient} {O : Options} {cfg : Config}
    (h : getWebpackConfig H A O = .ok cfg) :
    ∃ out dv, output H A O = .ok out ∧ definedVar H A O = .ok dv ∧
      cfg = { entry := O.entry
              context := A.root
              resolveExtensions := [".js", ".jsx"]
              nodeBuffer := false
              plugins := plugins A O dv
              rules := rules O
              output := out
              externals := externals O
              devtool := devtool O
              devServer := devServer H A O } := by
  unfold getWebpackConfig at h
  cases hout : output H A O with
  | error e => simp [hout] at h
  | ok out =>
    cases hdv : definedVar H A O with
    | error e => simp [hout, hdv] at h
    | ok dv =>
      simp only [hout, hdv, Except.ok.injEq] at h
      exact ⟨out, dv, rfl, rfl, h.symm⟩

/-- The flag `isProduction` holds exactly for `env.NODE_ENV === 'production'`. -/
theorem isProduction_iff (O : Options) :
    isProduction O = true ↔ O.env.NODE_ENV = some "production" := by
  simp [isProduction]

/-- The flag `isDevelopment` holds exactly for `env.NODE_ENV === 'development'`. -/
theorem isDevelopment_iff (O : Options) :
    isDevelopment O = true ↔ O.env.NODE_ENV = some "development" := by
  simp [isDevelopment]

/-- The flag `isExamples` holds exactly for `task === 'examples'`. -/
theorem isExamples_iff (O : Options) :
    isExamples O = true ↔ O.task = some "examples" := by
  simp [isExamples]

/-! ## Output, externals, plugins and dev server by task and environment -/

/-- C1: for task "library" and env.NODE_ENV "production", every returned configuration
has externals with exactly the keys react and react-dom, mapped to the fixed
root/commonjs/commonjs2/amd names React/react and ReactDOM/react-dom. -/
theorem externals_library_production (H : Host) (A : Ambient) (O : Options) (cfg : Config)
    (htask : O.task = some "library") (henv : O.env.NODE_ENV = some "production")
    (hret : getWebpackConfig H A O = .ok cfg) :
    ∃ ext, cfg.externals = some ext ∧
      ext.map Prod.fst = ["react", "react-dom"] ∧
      ext = [("react", { root := "React", commonjs := "react", commonjs2 := "react",
                         amd := "react" }),
             ("react-dom", { root := "ReactDOM", commonjs := "react-dom",
                             commonjs2 := "react-dom", amd := "react-dom" })] := by
  obtain ⟨out, dv, -, -, rfl⟩ := getWebpackConfig_ok hret
  have hp : isProduction O = true := (isProduction_iff O).2 henv
  have he : isExamples O = false := by simp [isExamples, htask]
  refine ⟨_, ?_, ?_, rfl⟩
  · simp [externals, hp, he]
  · rfl

/-- Witness of C1 on the sample library production build. -/
theorem externals_library_production_witness :
    ∃ cfg, getWebpackConfig sampleHost sampleAmbient
        (sampleOptions (some "library") (some "production")) = .ok cfg ∧
      ∃ ext, cfg.externals = some ext ∧
        ext.map Prod.fst = ["react", "react-dom"] ∧
        ext = [("react", { root := "React", commonjs := "react", commonjs2 := "react",
                           amd := "react" }),
               ("react-dom", { root := "ReactDOM", commonjs := "react-dom",
                               commonjs2 := "react-dom", amd := "react-dom" })] :=
  ⟨_, rfl, externals_library_production sampleHost sampleAmbient
    (sampleOptions (some "library") (some "production")) _ rfl rfl rfl⟩

/-- C3: for task "examples" and env.NODE_ENV "development", every returned configuration
has output.publicPath "/", output.filename "[name].js" and output.path the build
directory under the working directory; the whole output block is the same whatever the
package name is. -/
theorem output_examples_development (H : Host) (A : Ambient) (O : Options) (cfg : Config)
    (htask : O.task = some "examples") (henv : O.env.NODE_ENV = some "development")
    (hret : getWebpackConfig H A O = .ok cfg) :
    cfg.output.publicPath = some "/" ∧ cfg.output.filename = "[name].js" ∧
      cfg.output.path = H.pathJoin A.root "build" ∧
      ∀ name cfg2, getWebpackConfig H { A with packageName := name } O = .ok cfg2 →
        cfg2.output = cfg.output := by
  obtain ⟨out, dv, hout, -, rfl⟩ := getWebpackConfig_ok hret
  have he : isExamples O = true := (isExamples_iff O).2 htask
  have hp : isProduction O = false := by simp [isProduction, henv]
  simp only [output, he, hp, if_true, if_false, Bool.false_eq_true, Except.ok.injEq] at hout
  subst hout
  refine ⟨rfl, rfl, rfl, ?_⟩
  intro name cfg2 h2
  obtain ⟨out2, dv2, hout2, -, rfl⟩ := getWebpackConfig_ok h2
  simp only [output, he, hp, if_true, if_false, Bool.false_eq_true, Except.ok.injEq] at hout2
  subst hout2
  rfl

/-- Witness of C3 on the sample examples development build. -/
theorem output_examples_development_witness :
    ∃ cfg, getWebpackConfig sampleHost sampleAmbient
        (sampleOptions (some "examples") (some "development")) = .ok cfg ∧
      cfg.output.publicPath = some "/" ∧ cfg.output.filename = "[name].js" ∧
      cfg.output.path = "/work/build" :=
  ⟨_, rfl,
    (output_examples_development sampleHost sampleAmbient
      (sampleOptions (some "examples") (some "development")) _ rfl rfl rfl).1,
    (output_examples_development sampleHost sampleAmbient
      (sampleOptions (some "examples") (some "development")) _ rfl rfl rfl).2.1,
    (output_examples_development sampleHost sampleAmbient
      (sampleOptions (some "examples") (some "development")) _ rfl rfl rfl).2.2.1.trans
        (by decide)⟩

/-- C4: for every task, with env.NODE_ENV "development" every returned configuration has a
hot-module-replacement plugin among its plugins and a devServer block. -/
theorem development_has_hmr_and_devServer (H : Host) (A : Ambient) (O : Options)
    (cfg : Config) (henv : O.env.NODE_ENV = some "development")
    (hret : getWebpackConfig H A O = .ok cfg) :
    Plugin.HotModuleReplacementPlugin ∈ cfg.plugins ∧
      cfg.devServer =
        some { compress := true
               clientLogLevel := "none"
               contentBase := H.pathJoin A.dirname "build"
               hot := true
               port := 9000
               quiet := true
               stats := "errors-only"
               watchOptionsIgnored := "node_modules"
               overlay := true } := by
  obtain ⟨out, dv, -, -, rfl⟩ := getWebpackConfig_ok hret
  have hp : isProduction O = false := by simp [isProduction, henv]
  have hd : isDevelopment O = true := (isDevelopment_iff O).2 henv
  refine ⟨?_, ?_⟩
  · simp [plugins, hp]
  · simp [devServer, hd]

/-- Witness of C4 on the sample library and examples development builds. -/
theorem development_has_hmr_and_devServer_witness :
    (∃ cfg, getWebpackConfig sampleHost sampleAmbient
        (sampleOptions (some "library") (some "development")) = .ok cfg ∧
      Plugin.HotModuleReplacementPlugin ∈ cfg.plugins ∧ cfg.devServer.isSome = true) ∧
    (∃ cfg, getWebpackConfig sampleHost sampleAmbient
        (sampleOptions (some "examples") (some "development")) = .ok cfg ∧
      Plugin.HotModuleReplacementPlugin ∈ cfg.plugins ∧ cfg.devServer.isSome = true) :=
  ⟨⟨_, rfl,
      (development_has_hmr_and_devServer sampleHost sampleAmbient
        (sampleOptions (some "library") (some "development")) _ rfl rfl).1,
      by rw [(development_has_hmr_and_devServer sampleHost sampleAmbient
        (sampleOptions (some "library") (some "development")) _ rfl rfl).2]; rfl⟩,
   ⟨_, rfl,
      (development_has_hmr_and_devServer sampleHost sampleAmbient
        (sampleOptions (some "examples") (some "development")) _ rfl rfl).1,
      by rw [(development_has_hmr_and_devServer sampleHost sampleAmbient
        (sampleOptions (some "examples") (some "development")) _ rfl rfl).2]; rfl⟩⟩

/-- The rules of a non-production build. -/
theorem rules_of_not_production {O : Options} (hp : isProduction O = false) :
    rules O = rules (sampleOptions none none) := by
  have h : isProduction (sampleOptions none none) = false := by decide
  simp only [rules, extractCSS, hp, h]

/-- The rules of a production build. -/
theorem rules_of_production {O : Options} (hp : isProduction O = true) :
    rules O = rules (sampleOptions none (some "production")) := by
  have h : isProduction (sampleOptions none (some "production")) = true := by decide
  simp only [rules, extractCSS, hp, h]

/-- C10: the devServer block is present exactly when env.NODE_ENV is "development"; when
env.NODE_ENV is neither "production" nor "development" a returned configuration has devtool
"eval-source-map", the hot-module-replacement and named-modules plugins, stylesheet chains
that begin with "style-loader", no externals and no devServer block. -/
theorem devServer_iff_development (H : Host) (A : Ambient) (O : Options) (cfg : Config)
    (hret : getWebpackConfig H A O = .ok cfg) :
    (cfg.devServer.isSome = true ↔ O.env.NODE_ENV = some "development") ∧
    (O.env.NODE_ENV ≠ some "production" → O.env.NODE_ENV ≠ some "development" →
      cfg.devtool = "eval-source-map" ∧
      Plugin.HotModuleReplacementPlugin ∈ cfg.plugins ∧
      Plugin.NamedModulesPlugin ∈ cfg.plugins ∧
      (cfg.rules.filter fun r => decide (r.test ∈ stylesheetTests)).map (fun r => r.use) =
        [.array (.name "style-loader" :: cssLoaders.map .object),
         .array (.name "style-loader" :: lessLoaders.map .object),
         .array (.name "style-loader" :: sassLoaders.map .object),
         .array (.name "style-loader" :: stylLoaders.map .object)] ∧
      cfg.externals = none ∧ cfg.devServer = none) := by
  obtain ⟨out, dv, -, -, rfl⟩ := getWebpackConfig_ok hret
  refine ⟨?_, ?_⟩
  · by_cases hd : O.env.NODE_ENV = some "development"
    · simp [devServer, isDevelopment, hd]
    · simp [devServer, isDevelopment, hd]
  · intro hnp hnd
    have hp : isProduction O = false := by simp [isProduction, hnp]
    have hd : isDevelopment O = false := by simp [isDevelopment, hnd]
    refine ⟨?_, ?_, ?_, ?_, ?_, ?_⟩
    · simp [devtool, hp]
    · simp [plugins, hp]
    · simp [plugins, hp]
    · show ((rules O).filter fun r => decide (r.test ∈ stylesheetTests)).map (fun r => r.use)
        = _
      rw [rules_of_not_production hp]
      decide
    · simp [externals, hp]
    · simp [devServer, hd]

/-- Witness of C10 on the sample library build with env.NODE_ENV "test". -/
theorem devServer_iff_development_witness :
    ∃ cfg, getWebpackConfig sampleHost sampleAmbient
        (sampleOptions (some "library") (some "test")) = .ok cfg ∧
      cfg.devtool = "eval-source-map" ∧
      Plugin.HotModuleReplacementPlugin ∈ cfg.plugins ∧
      Plugin.NamedModulesPlugin ∈ cfg.plugins ∧
      cfg.externals = none ∧ cfg.devServer = none :=
  have h := (devServer_iff_development sampleHost sampleAmbient
    (sampleOptions (some "library") (some "test")) _ rfl).2 (by decide) (by decide)
  ⟨_, rfl, h.1, h.2.1, h.2.2.1, h.2.2.2.2.1, h.2.2.2.2.2⟩

/-- The rule table has one of two values, by the production flag. -/
theorem rules_cases (O : Options) :
    (isProduction O = false ∧ rules O = rules (sampleOptions none none)) ∨
    (isProduction O = true ∧ rules O = rules (sampleOptions none (some "production"))) := by
  cases hp : isProduction O with
  | false => exact Or.inl ⟨rfl, rules_of_not_production hp⟩
  | true => exact Or.inr ⟨rfl, rules_of_production hp⟩

/-- C8: every returned configuration has exactly 13 rules, in the fixed order script,
markup, four stylesheet dialects, raster image and six font files; their patterns, loaders
and options are the same for any two returned configurations, whatever the task, entry,
host and environment variables are; two configurations built with the same answer to
"is env.NODE_ENV production" have equal rules; and a stylesheet chain is its loader list
wrapped by ExtractTextPlugin.extract in production and prefixed with "style-loader"
otherwise, while the other rules use their loader list as it is. -/
theorem rules_fixed (H H2 : Host) (A A2 : Ambient) (O O2 : Options) (cfg cfg2 : Config)
    (hret : getWebpackConfig H A O = .ok cfg)
    (hret2 : getWebpackConfig H2 A2 O2 = .ok cfg2) :
    cfg.rules.length = 13 ∧
    cfg.rules.map (fun r => r.test) = ruleTests ∧
    cfg.rules.map (fun r => r.use.loaders.map fun l => l.loader) = ruleLoaderNames ∧
    cfg.rules.map Rule.content = cfg2.rules.map Rule.content ∧
    ((O.env.NODE_ENV = some "production" ↔ O2.env.NODE_ENV = some "production") →
      cfg.rules = cfg2.rules) ∧
    (∀ r ∈ cfg.rules, r.test ∈ stylesheetTests →
      r.use = if O.env.NODE_ENV = some "production"
        then Use.extract "style-loader" r.use.loaders
        else Use.array (UseItem.name "style-loader" :: r.use.loaders.map UseItem.object)) ∧
    (∀ r ∈ cfg.rules, r.test ∉ stylesheetTests →
      r.use = Use.array (r.use.loaders.map UseItem.object)) := by
  obtain ⟨out, dv, -, -, rfl⟩ := getWebpackConfig_ok hret
  obtain ⟨out2, dv2, -, -, rfl⟩ := getWebpackConfig_ok hret2
  show (rules O).length = 13 ∧
    (rules O).map (fun r => r.test) = ruleTests ∧
    (rules O).map (fun r => r.use.loaders.map fun l => l.loader) = ruleLoaderNames ∧
    (rules O).map Rule.content = (rules O2).map Rule.content ∧
    ((O.env.NODE_ENV = some "production" ↔ O2.env.NODE_ENV = some "production") →
      rules O = rules O2) ∧
    (∀ r ∈ rules O, r.test ∈ stylesheetTests →
      r.use = if O.env.NODE_ENV = some "production"
        then Use.extract "style-loader" r.use.loaders
        else Use.array (UseItem.name "style-loader" :: r.use.loaders.map UseItem.object)) ∧
    (∀ r ∈ rules O, r.test ∉ stylesheetTests →
      r.use = Use.array (r.use.loaders.map UseItem.object))
  rcases rules_cases O with ⟨hp, hr⟩ | ⟨hp, hr⟩ <;>
    rcases rules_cases O2 with ⟨hp2, hr2⟩ | ⟨hp2, hr2⟩
  all_goals
    have hn := isProduction_iff O
    have hn2 := isProduction_iff O2
    rw [hp] at hn
    rw [hp2] at hn2
    rw [hr, hr2]
    simp only [Bool.false_eq_true, false_iff, true_iff] at hn hn2
    refine ⟨by decide, by decide, by decide, ?_, ?_, ?_, ?_⟩
    · rfl
    · intro h
      first | rfl | exact absurd (h.mp hn) hn2 | exact absurd (h.mpr hn2) hn
    · simp only [hn, if_true, if_false]
      decide
    · decide

/-- Witness of C8 on the sample library production and examples development builds. -/
theorem rules_fixed_witness :
    ∃ cfg cfg2,
      getWebpackConfig sampleHost sampleAmbient
        (sampleOptions (some "library") (some "production")) = .ok cfg ∧
      getWebpackConfig sampleHost sampleAmbient
        (sampleOptions (some "examples") (some "development")) = .ok cfg2 ∧
      cfg.rules.length = 13 ∧
      cfg.rules.map (fun r => r.test) = ruleTests ∧
      cfg.rules.map Rule.content = cfg2.rules.map Rule.content :=
  have h := rules_fixed sampleHost sampleHost sampleAmbient sampleAmbient
    (sampleOptions (some "library") (some "production"))
    (sampleOptions (some "examples") (some "development")) _ _ rfl rfl
  ⟨_, _, rfl, rfl, h.1, h.2.1, h.2.2.2.1⟩

/-! ## The example-key pattern -/

/-- The pattern match on characters returns `dir` exactly for `dir` non-empty, free of
slashes and followed by `/index`. -/
theorem matchIndexChars_eq_some (cs dir : List Char) :
    matchIndexChars cs = some dir ↔
      dir ≠ [] ∧ '/' ∉ dir ∧ cs = dir ++ ['/', 'i', 'n', 'd', 'e', 'x'] := by
  unfold matchIndexChars
  constructor
  · intro h
    simp only at h
    split at h
    · rename_i hc
      obtain ⟨hne, hrest⟩ := hc
      simp only [Option.some.injEq] at h
      subst h
      refine ⟨hne, ?_, ?_⟩
      · intro hmem
        have := List.mem_takeWhile_imp hmem
        simp at this
      · rw [← hrest]
        exact (List.takeWhile_append_dropWhile _ cs).symm
    · simp at h
  · rintro ⟨hne, hno, rfl⟩
    have hall : ∀ a ∈ dir, (fun c : Char => c != '/') a = true := by
      intro a ha
      simp only [bne_iff_ne, ne_eq]
      rintro rfl
      exact hno ha
    have ht : List.takeWhile (fun c : Char => c != '/')
        (dir ++ ['/', 'i', 'n', 'd', 'e', 'x']) = dir := by
      rw [List.takeWhile_append_of_pos hall]
      simp [List.takeWhile]
    have hd : List.dropWhile (fun c : Char => c != '/')
        (dir ++ ['/', 'i', 'n', 'd', 'e', 'x']) = ['/', 'i', 'n', 'd', 'e', 'x'] := by
      rw [List.dropWhile_append_of_pos hall]
      simp [List.dropWhile]
    simp only [ht, hd]
    simp [hne]

/-- The pattern match on a key returns `dir` exactly when the key has the form
`<dir>/index`. -/
theorem matchIndex_eq_some (key dir : String) :
    matchIndex key = some dir ↔ IsIndexKey dir key := by
  unfold matchIndex IsIndexKey
  constructor
  · intro h
    cases hm : matchIndexChars key.data with
    | none => simp [hm] at h
    | some d =>
      simp only [hm, Option.map_some', Option.some.injEq] at h
      subst h
      obtain ⟨h1, h2, h3⟩ := (matchIndexChars_eq_some _ _).1 hm
      refine ⟨h1, h2, ?_⟩
      apply String.ext
      simpa using h3
  · rintro ⟨h1, h2, rfl⟩
    have hm := (matchIndexChars_eq_some (dir.data ++ ['/', 'i', 'n', 'd', 'e', 'x'])
      dir.data).2 ⟨h1, h2, rfl⟩
    show (matchIndexChars (dir.data ++ ['/', 'i', 'n', 'd', 'e', 'x'])).map String.mk
      = some dir
    rw [hm]
    rfl

/-- A key fails the pattern match exactly when it has the form `<dir>/index` for no
`dir`. -/
theorem matchIndex_eq_none (key : String) :
    matchIndex key = none ↔ ∀ dir, ¬ IsIndexKey dir key := by
  constructor
  · intro h dir hd
    rw [(matchIndex_eq_some key dir).2 hd] at h
    cases h
  · intro h
    cases hm : matchIndex key with
    | none => rfl
    | some d => exact absurd ((matchIndex_eq_some key d).1 hm) (h d)

/-- When every key matches, `matchAll` returns the directory names, one per key and in the
order of the keys. -/
theorem matchAll_ok (keys : List String)
    (h : ∀ key ∈ keys, ∃ dir, IsIndexKey dir key) :
    ∃ dirs, matchAll keys = .ok dirs ∧ List.Forall₂ (fun key dir => IsIndexKey dir key)
      keys dirs := by
  induction keys with
  | nil => exact ⟨[], rfl, List.Forall₂.nil⟩
  | cons k ks ih =>
    obtain ⟨d, hd⟩ := h k (List.mem_cons_self _ _)
    obtain ⟨ds, hds, hf⟩ := ih fun key hk => h key (List.mem_cons_of_mem _ hk)
    refine ⟨d :: ds, ?_, List.Forall₂.cons hd hf⟩
    simp [matchAll, (matchIndex_eq_some k d).2 hd, hds]

/-- When some key fails the pattern, `matchAll` throws. -/
theorem matchAll_error (keys : List String)
    (h : ∃ key ∈ keys, ∀ dir, ¬ IsIndexKey dir key) :
    matchAll keys = .error .matchOfNull := by
  induction keys with
  | nil =>
    obtain ⟨key, hk, -⟩ := h
    cases hk
  | cons k ks ih =>
    cases hm : matchIndex k with
    | none => simp [matchAll, hm]
    | some d =>
      obtain ⟨key, hk, hbad⟩ := h
      have hks : ∃ key ∈ ks, ∀ dir, ¬ IsIndexKey dir key := by
        rcases List.mem_cons.1 hk with rfl | hk
        · exact absurd ((matchIndex_eq_some _ d).1 hm) (hbad d)
        · exact ⟨key, hk, hbad⟩
      simp [matchAll, hm, ih hks]

/-- For the task "examples" the `output` block cannot throw. -/
theorem output_examples_ok (H : Host) (A : Ambient) (O : Options)
    (htask : O.task = some "examples") : ∃ out, output H A O = .ok out := by
  have he : isExamples O = true := (isExamples_iff O).2 htask
  unfold output
  rw [he]
  cases isProduction O <;> exact ⟨_, rfl⟩

/-- The result depends on `exampleEntry` through the array `exampleDirs` only, and only
for the task "examples". -/
theorem getWebpackConfig_congr_exampleEntry (H : Host) (A : Ambient) (O : Options)
    (ee : Option (List (String × String)))
    (h : O.task = some "examples" →
      exampleDirs { O with exampleEntry := ee } = exampleDirs O) :
    getWebpackConfig H A { O with exampleEntry := ee } = getWebpackConfig H A O := by
  have hout : output H A { O with exampleEntry := ee } = output H A O := rfl
  have hpl : ∀ dv, plugins A { O with exampleEntry := ee } dv = plugins A O dv :=
    fun _ => rfl
  have hr : rules { O with exampleEntry := ee } = rules O := rfl
  have hx : externals { O with exampleEntry := ee } = externals O := rfl
  have hdt : devtool { O with exampleEntry := ee } = devtool O := rfl
  have hds : devServer H A { O with exampleEntry := ee } = devServer H A O := rfl
  have he2 : isExamples { O with exampleEntry := ee } = isExamples O := rfl
  have hdv : definedVar H A { O with exampleEntry := ee } = definedVar H A O := by
    cases he : isExamples O with
    | false => simp [definedVar, he2, he]
    | true => simp only [definedVar, he2, he, h ((isExamples_iff O).1 he)]
  simp only [getWebpackConfig, hout, hdv, hpl, hr, hx, hdt, hds]

/-- For a task other than "examples" nothing depends on `exampleEntry`. -/
theorem getWebpackConfig_exampleEntry_irrelevant (H : Host) (A : Ambient) (O : Options)
    (htask : O.task ≠ some "examples") (ee : Option (List (String × String))) :
    getWebpackConfig H A { O with exampleEntry := ee } = getWebpackConfig H A O :=
  getWebpackConfig_congr_exampleEntry H A O ee fun h => absurd h htask

/-- The configuration returned when neither the `output` block nor `definedVar` throws. -/
theorem getWebpackConfig_eq_ok {H : Host} {A : Ambient} {O : Options} {out : Output}
    {dv : List (String × Option String)} (hout : output H A O = .ok out)
    (hdv : definedVar H A O = .ok dv) :
    getWebpackConfig H A O =
      .ok { entry := O.entry
            context := A.root
            resolveExtensions := [".js", ".jsx"]
            nodeBuffer := false
            plugins := plugins A O dv
            rules := rules O
            output := out
            externals := externals O
            devtool := devtool O
            devServer := devServer H A O } := by
  simp only [getWebpackConfig, hout, hdv]

/-- The object `definedVar` of an examples build whose keys all match. -/
theorem definedVar_examples {H : Host} {A : Ambient} {O : Options}
    {kvs : List (String × String)} {repo : Repo} {dirs : List String}
    (htask : O.task = some "examples")
    (hparse : H.parseGithubUrl A.packageRepositoryUrl = .ok (some repo))
    (hentry : O.exampleEntry = some kvs)
    (hok : matchAll (kvs.map Prod.fst) = .ok dirs) :
    definedVar H A O =
      .ok (definedBase A repo ++ [("exampleDirs", some (jsonStringifyArray (jsSort dirs)))]) := by
  have he : isExamples O = true := (isExamples_iff O).2 htask
  simp only [definedVar, hparse, he, exampleDirs, hentry, hok, if_true]

/-- The object `definedVar` of a build for another task. -/
theorem definedVar_not_examples {H : Host} {A : Ambient} {O : Options} {repo : Repo}
    (htask : O.task ≠ some "examples")
    (hparse : H.parseGithubUrl A.packageRepositoryUrl = .ok (some repo)) :
    definedVar H A O = .ok (definedBase A repo) := by
  have he : isExamples O = false := by simp [isExamples, htask]
  simp [definedVar, hparse, he]

/-- The `output` block throws only when `dashToUpperCamelCase` does. -/
theorem output_error {H : Host} {A : Ambient} {O : Options} {e : Failure}
    (h : output H A O = .error e) : e = .utilThrew := by
  unfold output at h
  split at h
  · split at h <;> cases h
  · split at h
    · cases h
      rfl
    · cases h

/-- For a task other than "examples" the function can throw only in
`dashToUpperCamelCase`, in `parseGithubUrl` or on reading `repo` of `null`. -/
theorem error_not_examples {H : Host} {A : Ambient} {O : Options} {e : Failure}
    (htask : O.task ≠ some "examples") (h : getWebpackConfig H A O = .error e) :
    e = .utilThrew ∨ e = .parseThrew ∨ e = .repoOfNull := by
  have he : isExamples O = false := by simp [isExamples, htask]
  unfold getWebpackConfig at h
  cases hout : output H A O with
  | error e2 =>
    simp only [hout, Except.error.injEq] at h
    subst h
    exact Or.inl (output_error hout)
  | ok out =>
    simp only [hout] at h
    cases hdv : definedVar H A O with
    | ok dv => simp [hdv] at h
    | error e2 =>
      simp only [hdv, Except.error.injEq] at h
      subst h
      unfold definedVar at hdv
      split at hdv
      · cases hdv
        exact Or.inr (Or.inl rfl)
      · cases hdv
        exact Or.inr (Or.inr rfl)
      · simp [he] at hdv

/-- C7: for task "examples", with the repository URL parsed to an object and exampleEntry
a mapping, the function throws the failure of the key match exactly when some key of
exampleEntry is not of the form "<dir>/index", and returns a configuration when every key
is of that form; for any other task the result is the same for every exampleEntry and is
never a failure of the key parsing. -/
theorem exampleEntry_key_failure (H : Host) (A : Ambient) (O : Options) :
    (∀ kvs repo, O.task = some "examples" →
      H.parseGithubUrl A.packageRepositoryUrl = .ok (some repo) →
      O.exampleEntry = some kvs →
      (getWebpackConfig H A O = .error .matchOfNull ↔
        ∃ key ∈ kvs.map Prod.fst, ∀ dir, ¬ IsIndexKey dir key) ∧
      ((∀ key ∈ kvs.map Prod.fst, ∃ dir, IsIndexKey dir key) →
        ∃ cfg, getWebpackConfig H A O = .ok cfg)) ∧
    (O.task ≠ some "examples" →
      (∀ ee, getWebpackConfig H A { O with exampleEntry := ee } = getWebpackConfig H A O) ∧
      getWebpackConfig H A O ≠ .error .matchOfNull ∧
      getWebpackConfig H A O ≠ .error .keysOfUndefined) := by
  refine ⟨?_, ?_⟩
  · intro kvs repo htask hparse hentry
    have he : isExamples O = true := (isExamples_iff O).2 htask
    obtain ⟨out, hout⟩ := output_examples_ok H A O htask
    have hgood : (∀ key ∈ kvs.map Prod.fst, ∃ dir, IsIndexKey dir key) →
        ∃ cfg, getWebpackConfig H A O = .ok cfg := by
      intro hall
      obtain ⟨dirs, hok, -⟩ := matchAll_ok _ hall
      exact ⟨_, getWebpackConfig_eq_ok hout (definedVar_examples htask hparse hentry hok)⟩
    refine ⟨⟨?_, ?_⟩, hgood⟩
    · intro herr
      by_contra hno
      push_neg at hno
      obtain ⟨cfg, hcfg⟩ := hgood hno
      rw [hcfg] at herr
      cases herr
    · intro hbad
      have herr := matchAll_error _ hbad
      simp [getWebpackConfig, hout, definedVar, hparse, he, exampleDirs, hentry, herr]
  · intro htask
    refine ⟨getWebpackConfig_exampleEntry_irrelevant H A O htask, ?_, ?_⟩
    · intro h
      rcases error_not_examples htask h with h2 | h2 | h2 <;> cases h2
    · intro h
      rcases error_not_examples htask h with h2 | h2 | h2 <;> cases h2

/-- Witness of C7: in the sample examples build the key "modal" makes the function throw,
the well-formed keys let it return, and the library build ignores exampleEntry. -/
theorem exampleEntry_key_failure_witness :
    getWebpackConfig sampleHost sampleAmbient
        { sampleOptions (some "examples") (some "production") with
          exampleEntry := some [("basic/index", "./a.js"), ("modal", "./b.js")] }
        = .error .matchOfNull ∧
    (∃ cfg, getWebpackConfig sampleHost sampleAmbient
        (sampleOptions (some "examples") (some "production")) = .ok cfg) ∧
    (∀ ee, getWebpackConfig sampleHost sampleAmbient
        { sampleOptions (some "library") (some "production") with exampleEntry := ee }
        = getWebpackConfig sampleHost sampleAmbient
            (sampleOptions (some "library") (some "production"))) :=
  ⟨(((exampleEntry_key_failure sampleHost sampleAmbient
        { sampleOptions (some "examples") (some "production") with
          exampleEntry := some [("basic/index", "./a.js"), ("modal", "./b.js")] }).1
        _ _ rfl rfl rfl).1).2
      ⟨"modal", by decide, (matchIndex_eq_none "modal").1 rfl⟩,
   ((exampleEntry_key_failure sampleHost sampleAmbient
        (sampleOptions (some "examples") (some "production"))).1 _ _ rfl rfl rfl).2
      (by
        intro key hk
        have hk2 : key = "modal/index" ∨ key = "basic/index" := by simpa using hk
        rcases hk2 with rfl | rfl
        · exact ⟨"modal", (matchIndex_eq_some _ _).1 rfl⟩
        · exact ⟨"basic", (matchIndex_eq_some _ _).1 rfl⟩),
   ((exampleEntry_key_failure sampleHost sampleAmbient
        (sampleOptions (some "library") (some "production"))).2 (by decide)).1⟩

/-! ## The code-unit order and the sort -/

/-- The lexicographic order is total. -/
theorem lexLe_total : ∀ a b : List Nat, lexLe a b = true ∨ lexLe b a = true
  | [], _ => Or.inl rfl
  | _ :: _, [] => Or.inr rfl
  | a :: as, b :: bs => by
    simp only [lexLe, Bool.or_eq_true, Bool.and_eq_true, decide_eq_true_eq]
    rcases Nat.lt_trichotomy a b with h | h | h
    · exact Or.inl (Or.inl h)
    · rcases lexLe_total as bs with h2 | h2
      · exact Or.inl (Or.inr ⟨h, h2⟩)
      · exact Or.inr (Or.inr ⟨h.symm, h2⟩)
    · exact Or.inr (Or.inl h)

/-- The lexicographic order is transitive. -/
theorem lexLe_trans : ∀ a b c : List Nat, lexLe a b = true → lexLe b c = true →
    lexLe a c = true
  | [], _, _ => fun _ _ => rfl
  | _ :: _, [], _ => fun h _ => by simp [lexLe] at h
  | _ :: _, _ :: _, [] => fun _ h => by simp [lexLe] at h
  | a :: as, b :: bs, c :: cs => by
    simp only [lexLe, Bool.or_eq_true, Bool.and_eq_true, decide_eq_true_eq]
    intro h1 h2
    rcases h1 with h1 | ⟨h1, h1t⟩
    · rcases h2 with h2 | ⟨h2, -⟩
      · exact Or.inl (by omega)
      · exact Or.inl (by omega)
    · rcases h2 with h2 | ⟨h2, h2t⟩
      · exact Or.inl (by omega)
      · exact Or.inr ⟨by omega, lexLe_trans as bs cs h1t h2t⟩

/-- The lexicographic order is antisymmetric. -/
theorem lexLe_antisymm : ∀ a b : List Nat, lexLe a b = true → lexLe b a = true → a = b
  | [], [] => fun _ _ => rfl
  | [], _ :: _ => fun _ h => by simp [lexLe] at h
  | _ :: _, [] => fun h _ => by simp [lexLe] at h
  | a :: as, b :: bs => by
    simp only [lexLe, Bool.or_eq_true, Bool.and_eq_true, decide_eq_true_eq]
    intro h1 h2
    rcases h1 with h1 | ⟨h1, h1t⟩
    · rcases h2 with h2 | ⟨h2, -⟩ <;> omega
    · rcases h2 with h2 | ⟨-, h2t⟩
      · omega
      · rw [h1, lexLe_antisymm as bs h1t h2t]

/-- A character is a Unicode scalar value: below the surrogates, or above them and below
U+110000. -/
theorem char_scalar (c : Char) : c.toNat < 55296 ∨ (57343 < c.toNat ∧ c.toNat < 1114112) :=
  c.valid

/-- Characters with the same code point are equal. -/
theorem char_eq_of_toNat {c d : Char} (h : c.toNat = d.toNat) : c = d := by
  rw [← Char.ofNat_toNat c, ← Char.ofNat_toNat d, h]

/-- The UTF-16 encoding of a list of characters determines the list. -/
theorem unitsOf_injective : ∀ a b : List Char, unitsOf a = unitsOf b → a = b
  | [], [] => fun _ => rfl
  | [], d :: ds => fun h => by
    simp only [unitsOf, charUnits] at h
    split at h <;> simp at h
  | c :: cs, [] => fun h => by
    simp only [unitsOf, charUnits] at h
    split at h <;> simp at h
  | c :: cs, d :: ds => fun h => by
    have hc := char_scalar c
    have hd := char_scalar d
    simp only [unitsOf, charUnits] at h
    split at h <;> split at h
    · simp only [List.singleton_append, List.cons.injEq] at h
      rw [char_eq_of_toNat h.1, unitsOf_injective cs ds h.2]
    · simp only [List.singleton_append, List.cons_append, List.nil_append,
        List.cons.injEq] at h
      omega
    · simp only [List.singleton_append, List.cons_append, List.nil_append,
        List.cons.injEq] at h
      omega
    · simp only [List.singleton_append, List.cons_append, List.nil_append,
        List.cons.injEq] at h
      have hcd : c.toNat = d.toNat := by omega
      rw [char_eq_of_toNat hcd, unitsOf_injective cs ds h.2.2]

/-- The UTF-16 code units of a string determine the string. -/
theorem codeUnits_injective {a b : String} (h : codeUnits a = codeUnits b) : a = b :=
  String.ext (unitsOf_injective _ _ h)

/-- Any two strings are comparable in code-unit order. -/
theorem cuLe_total (a b : String) : cuLe a b ∨ cuLe b a :=
  lexLe_total _ _

/-- The code-unit order is transitive. -/
theorem cuLe_trans {a b c : String} (h1 : cuLe a b) (h2 : cuLe b c) : cuLe a c :=
  lexLe_trans _ _ _ h1 h2

/-- Strings that are at most each other in code-unit order are equal. -/
theorem cuLe_antisymm {a b : String} (h1 : cuLe a b) (h2 : cuLe b a) : a = b :=
  codeUnits_injective (lexLe_antisymm _ _ h1 h2)

/-- The sorted array is a rearrangement of the array. -/
theorem jsSort_perm (a : List String) : (jsSort a).Perm a :=
  List.perm_insertionSort cuLe a

/-- The sorted array is in ascending code-unit order. -/
theorem jsSort_sorted (a : List String) : (jsSort a).Sorted cuLe :=
  haveI : IsTotal String cuLe := ⟨cuLe_total⟩
  haveI : IsTrans String cuLe := ⟨fun _ _ _ => cuLe_trans⟩
  List.sorted_insertionSort cuLe a

/-- Rearranging an array does not change its sorted array. -/
theorem jsSort_eq_of_perm {a b : List String} (h : a.Perm b) : jsSort a = jsSort b :=
  haveI : IsAntisymm String cuLe := ⟨fun _ _ => cuLe_antisymm⟩
  List.eq_of_perm_of_sorted ((jsSort_perm a).trans (h.trans (jsSort_perm b).symm))
    (jsSort_sorted a) (jsSort_sorted b)

/-- The directory names returned by `matchAll` are the matches of the keys. -/
theorem matchAll_map : ∀ (keys dirs : List String), matchAll keys = .ok dirs →
    keys.map matchIndex = dirs.map some
  | [], dirs => fun h => by
    simp only [matchAll, Except.ok.injEq] at h
    subst h
    rfl
  | k :: ks, dirs => fun h => by
    simp only [matchAll] at h
    cases hm : matchIndex k with
    | none => simp [hm] at h
    | some d =>
      cases hr : matchAll ks with
      | error e => simp [hm, hr] at h
      | ok ds =>
        simp only [hm, hr, Except.ok.injEq] at h
        subst h
        simp [hm, matchAll_map ks ds hr]

/-- Rearranged keys yield rearranged directory names. -/
theorem matchAll_perm {keys keys2 dirs dirs2 : List String} (hp : keys2.Perm keys)
    (h : matchAll keys = .ok dirs) (h2 : matchAll keys2 = .ok dirs2) : dirs2.Perm dirs := by
  have e1 := matchAll_map keys dirs h
  have e2 := matchAll_map keys2 dirs2 h2
  have hperm : (dirs2.map some).Perm (dirs.map some) := by
    rw [← e1, ← e2]
    exact hp.map _
  have := hperm.filterMap id
  simpa using this

/-- The definitions object of a returned configuration is its `definedVar`. -/
theorem definitions_of_ok {H : Host} {A : Ambient} {O : Options} {cfg : Config}
    (h : getWebpackConfig H A O = .ok cfg) :
    ∃ dv, definedVar H A O = .ok dv ∧ cfg.definitions = some dv := by
  obtain ⟨out, dv, -, hdv, rfl⟩ := getWebpackConfig_ok h
  exact ⟨dv, hdv, rfl⟩

/-- The properties of the object literal do not include `exampleDirs`. -/
theorem property_definedBase (A : Ambient) (repo : Repo)
    (more : List (String × Option String)) :
    property (definedBase A repo ++ more) "exampleDirs" = property more "exampleDirs" := by
  simp only [property, definedBase, List.cons_append, List.nil_append]
  rw [List.lookup_cons, List.lookup_cons, List.lookup_cons, List.lookup_cons]
  have h1 : ("exampleDirs" == "process.env.NODE_ENV") = false := by decide
  have h2 : ("exampleDirs" == "packageName") = false := by decide
  have h3 : ("exampleDirs" == "packageVersion") = false := by decide
  have h4 : ("exampleDirs" == "repository") = false := by decide
  simp only [h1, h2, h3, h4]

/-- A computed `definedVar` comes from a repository URL that parsed to an object. -/
theorem parse_of_definedVar_ok {H : Host} {A : Ambient} {O : Options}
    {dv : List (String × Option String)} (h : definedVar H A O = .ok dv) :
    ∃ repo, H.parseGithubUrl A.packageRepositoryUrl = .ok (some repo) := by
  unfold definedVar at h
  split at h
  · cases h
  · cases h
  · rename_i repo hp
    exact ⟨repo, hp⟩

/-- C9: for task "examples" and an exampleEntry whose keys all have the form "<dir>/index",
the function returns whenever the repository URL parses to an object, and in every
returned configuration the injected constant exampleDirs is the JSON encoding of a list
that is a permutation of the <dir> parts of the keys, one per key, sorted in ascending
code-unit order, and is the same for every rearrangement of the keys; for any other task a
returned configuration injects no exampleDirs constant. -/
theorem exampleDirs_sorted_perm (H : Host) (A : Ambient) (O : Options) :
    (∀ kvs, O.task = some "examples" → O.exampleEntry = some kvs →
      (∀ kv ∈ kvs, ∃ dir, IsIndexKey dir kv.1) →
      (∀ repo, H.parseGithubUrl A.packageRepositoryUrl = .ok (some repo) →
        ∃ cfg, getWebpackConfig H A O = .ok cfg) ∧
      ∀ cfg, getWebpackConfig H A O = .ok cfg →
        ∃ dv dirs sorted,
          cfg.definitions = some dv ∧
          property dv "exampleDirs" = some (some (jsonStringifyArray sorted)) ∧
          List.Forall₂ (fun kv dir => IsIndexKey dir kv.1) kvs dirs ∧
          sorted.Perm dirs ∧ sorted.Sorted cuLe ∧
          ∀ kvs2 : List (String × String), (kvs2.map Prod.fst).Perm (kvs.map Prod.fst) →
            ∃ cfg2 dv2,
              getWebpackConfig H A { O with exampleEntry := some kvs2 } = .ok cfg2 ∧
              cfg2.definitions = some dv2 ∧
              property dv2 "exampleDirs" = some (some (jsonStringifyArray sorted))) ∧
    (O.task ≠ some "examples" →
      ∀ cfg, getWebpackConfig H A O = .ok cfg →
        ∃ dv, cfg.definitions = some dv ∧ property dv "exampleDirs" = none) := by
  refine ⟨?_, ?_⟩
  · intro kvs htask hentry hall
    have hall2 : ∀ key ∈ kvs.map Prod.fst, ∃ dir, IsIndexKey dir key := by
      intro key hk
      obtain ⟨kv, hkv, rfl⟩ := List.mem_map.1 hk
      exact hall kv hkv
    obtain ⟨dirs, hok, hf⟩ := matchAll_ok _ hall2
    obtain ⟨out, hout⟩ := output_examples_ok H A O htask
    refine ⟨fun repo hparse =>
      ⟨_, getWebpackConfig_eq_ok hout (definedVar_examples htask hparse hentry hok)⟩, ?_⟩
    intro cfg hret
    obtain ⟨dv, hdv, hdef⟩ := definitions_of_ok hret
    obtain ⟨repo, hparse⟩ := parse_of_definedVar_ok hdv
    rw [definedVar_examples htask hparse hentry hok, Except.ok.injEq] at hdv
    subst hdv
    have hprop : ∀ ds : List String,
        property (definedBase A repo ++ [("exampleDirs", some (jsonStringifyArray ds))])
          "exampleDirs" = some (some (jsonStringifyArray ds)) := by
      intro ds
      rw [property_definedBase]
      simp [property, List.lookup]
    refine ⟨_, dirs, jsSort dirs, hdef, hprop _, List.forall₂_map_left_iff.1 hf,
      jsSort_perm dirs, jsSort_sorted dirs, ?_⟩
    intro kvs2 hperm
    have hall3 : ∀ key ∈ kvs2.map Prod.fst, ∃ dir, IsIndexKey dir key :=
      fun key hk => hall2 key (hperm.mem_iff.1 hk)
    obtain ⟨dirs2, hok2, -⟩ := matchAll_ok _ hall3
    obtain ⟨out2, hout2⟩ :=
      output_examples_ok H A { O with exampleEntry := some kvs2 } htask
    refine ⟨_, _, getWebpackConfig_eq_ok hout2
      (definedVar_examples (O := { O with exampleEntry := some kvs2 }) htask hparse rfl
        hok2), rfl, ?_⟩
    rw [jsSort_eq_of_perm (matchAll_perm hperm hok hok2)]
    exact hprop _
  · intro htask cfg hret
    obtain ⟨dv, hdv, hdef⟩ := definitions_of_ok hret
    obtain ⟨repo, hparse⟩ := parse_of_definedVar_ok hdv
    rw [definedVar_not_examples htask hparse, Except.ok.injEq] at hdv
    subst hdv
    refine ⟨_, hdef, ?_⟩
    have := property_definedBase A repo []
    simpa [property] using this

/-- Witness of C9: the sample examples build returns and injects the sorted list basic,
modal for the keys modal/index, basic/index, and the sample library build injects no
exampleDirs. -/
theorem exampleDirs_sorted_perm_witness :
    (∃ cfg dv, getWebpackConfig sampleHost sampleAmbient
        (sampleOptions (some "examples") (some "production")) = .ok cfg ∧
      cfg.definitions = some dv ∧
      property dv "exampleDirs" = some (some "[\"basic\",\"modal\"]") ∧
      ∃ dirs sorted, property dv "exampleDirs" = some (some (jsonStringifyArray sorted)) ∧
        List.Forall₂ (fun kv dir => IsIndexKey dir kv.1)
          [("modal/index", "./examples/modal/index.js"),
           ("basic/index", "./examples/basic/index.js")] dirs ∧
        sorted.Perm dirs ∧ sorted.Sorted cuLe) ∧
    (∀ cfg, getWebpackConfig sampleHost sampleAmbient
        (sampleOptions (some "library") (some "production")) = .ok cfg →
      ∃ dv, cfg.definitions = some dv ∧ property dv "exampleDirs" = none) :=
  ⟨by
    obtain ⟨dv, dirs, sorted, h2, h3, h4, h5, h6, -⟩ :=
      ((exampleDirs_sorted_perm sampleHost sampleAmbient
        (sampleOptions (some "examples") (some "production"))).1 _ rfl rfl
        (by
          intro kv hk
          have hk2 : kv = ("modal/index", "./examples/modal/index.js") ∨
              kv = ("basic/index", "./examples/basic/index.js") := by
            simpa [sampleOptions] using hk
          rcases hk2 with rfl | rfl
          · exact ⟨"modal", (matchIndex_eq_some _ _).1 rfl⟩
          · exact ⟨"basic", (matchIndex_eq_some _ _).1 rfl⟩)).2 _ rfl
    have hdv := Option.some.inj h2
    subst hdv
    exact ⟨_, _, rfl, rfl, by decide, dirs, sorted, h3, h4, h5, h6⟩,
   (exampleDirs_sorted_perm sampleHost sampleAmbient
      (sampleOptions (some "library") (some "production"))).2 (by decide)⟩

/-! ## What the result depends on -/

/-- The array `exampleDirs`, or the failure of computing it, is the same for two mappings
with the same keys. -/
theorem exampleDirs_congr (O O2 : Options) (h : SameKeys O.exampleEntry O2.exampleEntry) :
    exampleDirs O = exampleDirs O2 := by
  unfold exampleDirs
  cases h1 : O.exampleEntry with
  | none =>
    cases h2 : O2.exampleEntry with
    | none => rfl
    | some kvs2 => simp [h1, h2, SameKeys] at h
  | some kvs =>
    cases h2 : O2.exampleEntry with
    | none => simp [h1, h2, SameKeys] at h
    | some kvs2 =>
      have hperm : (kvs.map Prod.fst).Perm (kvs2.map Prod.fst) := by
        simpa [h1, h2, SameKeys] using h
      by_cases hall : ∀ key ∈ kvs.map Prod.fst, ∃ dir, IsIndexKey dir key
      · have hall2 : ∀ key ∈ kvs2.map Prod.fst, ∃ dir, IsIndexKey dir key :=
          fun key hk => hall key (hperm.mem_iff.2 hk)
        obtain ⟨dirs, hok, -⟩ := matchAll_ok _ hall
        obtain ⟨dirs2, hok2, -⟩ := matchAll_ok _ hall2
        simp only [hok, hok2]
        rw [jsSort_eq_of_perm (matchAll_perm hperm hok2 hok)]
      · have hbad : ∃ key ∈ kvs.map Prod.fst, ∀ dir, ¬ IsIndexKey dir key := by
          push_neg at hall
          exact hall
        have hbad2 : ∃ key ∈ kvs2.map Prod.fst, ∀ dir, ¬ IsIndexKey dir key := by
          obtain ⟨key, hk, hno⟩ := hbad
          exact ⟨key, hperm.mem_iff.1 hk, hno⟩
        simp only [matchAll_error _ hbad, matchAll_error _ hbad2]

/-- Counterexample to C6: two examples builds that agree on the task, on env.NODE_ENV and
on the three environment variables, and differ in the entry mapping only, return
different configurations. -/
theorem five_values_not_enough :
    (sampleOptions (some "examples") (some "production")).task =
      ({ sampleOptions (some "examples") (some "production") with
          entry := [("other", "./src/other.js")] } : Options).task ∧
    (sampleOptions (some "examples") (some "production")).env.NODE_ENV =
      ({ sampleOptions (some "examples") (some "production") with
          entry := [("other", "./src/other.js")] } : Options).env.NODE_ENV ∧
    getWebpackConfig sampleHost sampleAmbient
        (sampleOptions (some "examples") (some "production")) ≠
      getWebpackConfig sampleHost sampleAmbient
        { sampleOptions (some "examples") (some "production") with
          entry := [("other", "./src/other.js")] } := by
  refine ⟨rfl, rfl, ?_⟩
  intro h
  have h2 := congrArg (fun r => r.toOption.map fun cfg => cfg.entry) h
  revert h2
  decide

/-- C6, amended: the result (the returned configuration or the failure) is the same for
two invocations that agree on the task, on env.NODE_ENV, on the three npm_package
variables and, in addition, on the entry mapping, on process.env.NODE_ENV, on the working
directory, on the script directory and, for the task "examples", on the keys of
exampleEntry up to their order; the values of exampleEntry, the order of its keys and, for
any other task, exampleEntry as a whole do not matter. -/
theorem determined_by_inputs (H : Host) (A A2 : Ambient) (O O2 : Options)
    (htask : O.task = O2.task) (henv : O.env.NODE_ENV = O2.env.NODE_ENV)
    (hname : A.packageName = A2.packageName)
    (hversion : A.packageVersion = A2.packageVersion)
    (hurl : A.packageRepositoryUrl = A2.packageRepositoryUrl)
    (hentry : O.entry = O2.entry)
    (hprocess : A.processNodeEnv = A2.processNodeEnv)
    (hroot : A.root = A2.root) (hdir : A.dirname = A2.dirname)
    (hkeys : O.task = some "examples" → SameKeys O.exampleEntry O2.exampleEntry) :
    getWebpackConfig H A O = getWebpackConfig H A2 O2 := by
  obtain ⟨n, v, u, pe, r, d⟩ := A
  obtain ⟨n2, v2, u2, pe2, r2, d2⟩ := A2
  obtain ⟨entry, ee, ⟨env⟩, task⟩ := O
  obtain ⟨entry2, ee2, ⟨env2⟩, task2⟩ := O2
  simp only at htask henv hname hversion hurl hentry hprocess hroot hdir hkeys
  subst htask henv hname hversion hurl hentry hprocess hroot hdir
  exact getWebpackConfig_congr_exampleEntry H _
    { entry := entry, exampleEntry := ee2, env := { NODE_ENV := env }, task := task } ee
    fun h => exampleDirs_congr _ _ (hkeys h)

/-- Witness of the amended C6: the sample examples build with its two example keys
exchanged and their values replaced. -/
theorem determined_by_inputs_witness :
    getWebpackConfig sampleHost sampleAmbient
        (sampleOptions (some "examples") (some "production")) =
      getWebpackConfig sampleHost sampleAmbient
        { sampleOptions (some "examples") (some "production") with
          exampleEntry := some [("basic/index", "./x.js"), ("modal/index", "./y.js")] } :=
  determined_by_inputs sampleHost sampleAmbient sampleAmbient
    (sampleOptions (some "examples") (some "production"))
    { sampleOptions (some "examples") (some "production") with
      exampleEntry := some [("basic/index", "./x.js"), ("modal/index", "./y.js")] }
    rfl rfl rfl rfl rfl rfl rfl rfl rfl
    (fun _ => List.Perm.swap "basic/index" "modal/index" [])

/-! ## The injected constants -/

/-- Reading the two digits written for a character below U+0020 gives the character
back. -/
theorem unicodeEscape_hexDigit (c : Char) (h : c.toNat < 32) :
    unicodeEscape '0' '0' (hexDigit (c.toNat / 16)) (hexDigit (c.toNat % 16)) = some c := by
  have hc : ∀ n, n < 32 → unicodeEscape '0' '0' (hexDigit (n / 16)) (hexDigit (n % 16))
      = some (Char.ofNat n) := by
    decide
  rw [hc _ h, Char.ofNat_toNat]

/-- Reading a short escape. -/
theorem unquoteChars_escape (e x : Char) (rest xs : List Char) (he : e ≠ 'u')
    (hx : escapeChar e = some x) (h : unquoteChars rest = some xs) :
    unquoteChars (Char.ofNat 92 :: e :: rest) = some (x :: xs) := by
  have h1 : (Char.ofNat 92).toNat ≠ 34 := by decide
  have h2 : (Char.ofNat 92).toNat = 92 := by decide
  rw [unquoteChars.eq_def]
  simp only [if_neg h1, if_pos h2, if_neg he, hx, h]

/-- Reading a unicode escape. -/
theorem unquoteChars_unicode (h1 h2 h3 h4 x : Char) (rest xs : List Char)
    (hx : unicodeEscape h1 h2 h3 h4 = some x) (h : unquoteChars rest = some xs) :
    unquoteChars (Char.ofNat 92 :: 'u' :: h1 :: h2 :: h3 :: h4 :: rest) = some (x :: xs) := by
  have e1 : (Char.ofNat 92).toNat ≠ 34 := by decide
  have e2 : (Char.ofNat 92).toNat = 92 := by decide
  rw [unquoteChars.eq_def]
  simp only [if_neg e1, if_pos e2, if_true, hx, h]

/-- Reading a character that is written as it is. -/
theorem unquoteChars_plain (c : Char) (rest xs : List Char) (h34 : c.toNat ≠ 34)
    (h92 : c.toNat ≠ 92) (h32 : ¬ c.toNat < 32) (h : unquoteChars rest = some xs) :
    unquoteChars (c :: rest) = some (c :: xs) := by
  rw [unquoteChars.eq_def]
  simp only [if_neg h34, if_neg h92, if_neg h32, h]

/-- Reading an escaped character followed by the rest of a literal gives the character,
followed by the reading of the rest. -/
theorem unquoteChars_quoteChar (c : Char) (rest xs : List Char)
    (h : unquoteChars rest = some xs) :
    unquoteChars (quoteChar c ++ rest) = some (c :: xs) := by
  have hof : ∀ n, c.toNat = n → c = Char.ofNat n := fun n e => by
    rw [← e, Char.ofNat_toNat]
  unfold quoteChar
  split_ifs with c8 c9 c10 c12 c13 c34 c92 c32
  · rw [hof _ c8]
    exact unquoteChars_escape _ _ _ _ (by decide) (by decide) h
  · rw [hof _ c9]
    exact unquoteChars_escape _ _ _ _ (by decide) (by decide) h
  · rw [hof _ c10]
    exact unquoteChars_escape _ _ _ _ (by decide) (by decide) h
  · rw [hof _ c12]
    exact unquoteChars_escape _ _ _ _ (by decide) (by decide) h
  · rw [hof _ c13]
    exact unquoteChars_escape _ _ _ _ (by decide) (by decide) h
  · rw [hof _ c34]
    exact unquoteChars_escape _ _ _ _ (by decide) (by decide) h
  · rw [hof _ c92]
    exact unquoteChars_escape _ _ _ _ (by decide) (by decide) h
  · exact unquoteChars_unicode _ _ _ _ _ _ _ (unicodeEscape_hexDigit c c32) h
  · exact unquoteChars_plain _ _ _ c34 c92 c32 h

/-- Reading the escaped characters of a string up to the closing quote gives the
characters back. -/
theorem unquoteChars_quoteChars : ∀ cs : List Char,
    unquoteChars (quoteChars cs ++ [Char.ofNat 34]) = some cs
  | [] => by decide
  | c :: cs => by
    rw [quoteChars, List.append_assoc]
    exact unquoteChars_quoteChar c _ _ (unquoteChars_quoteChars cs)

/-- Parsing the JSON encoding of a string gives the string back, unchanged. -/
theorem unquote_quoteJSONString (s : String) :
    unquoteJSONString (quoteJSONString s) = some s := by
  have h34 : (Char.ofNat 34).toNat = 34 := by decide
  simp only [unquoteJSONString, quoteJSONString, h34, if_true, unquoteChars_quoteChars,
    Option.map_some']

/-- A computed `definedVar` starts with the four properties of the object literal. -/
theorem definedVar_ok_shape {H : Host} {A : Ambient} {O : Options}
    {dv : List (String × Option String)} (h : definedVar H A O = .ok dv) :
    ∃ repo more, dv = definedBase A repo ++ more := by
  unfold definedVar at h
  split at h
  · cases h
  · cases h
  · rename_i repo _
    split at h
    · split at h
      · cases h
      · simp only [Except.ok.injEq] at h
        exact ⟨repo, _, h.symm⟩
    · simp only [Except.ok.injEq] at h
      exact ⟨repo, [], by rw [← h, List.append_nil]⟩

/-- The `packageName` and `packageVersion` properties of the object literal. -/
theorem property_definedBase_package (A : Ambient) (repo : Repo)
    (more : List (String × Option String)) :
    property (definedBase A repo ++ more) "packageName" = some (jsonStringify A.packageName) ∧
    property (definedBase A repo ++ more) "packageVersion"
      = some (jsonStringify A.packageVersion) := by
  have h1 : ("packageName" == "process.env.NODE_ENV") = false := by decide
  have h2 : ("packageName" == "packageName") = true := by decide
  have h3 : ("packageVersion" == "process.env.NODE_ENV") = false := by decide
  have h4 : ("packageVersion" == "packageName") = false := by decide
  have h5 : ("packageVersion" == "packageVersion") = true := by decide
  refine ⟨?_, ?_⟩
  · simp only [property, definedBase, List.cons_append]
    rw [List.lookup_cons, List.lookup_cons]
    simp only [h1, h2]
  · simp only [property, definedBase, List.cons_append]
    rw [List.lookup_cons, List.lookup_cons, List.lookup_cons]
    simp only [h3, h4, h5]

/-- Counterexample to C5: with npm_package_repository_url unset, as for a package without a
repository field, the URL parser returns null and the sample examples build throws while
the constants object is being built; no configuration and no DefinePlugin come out. -/
theorem constants_not_always_produced :
    getWebpackConfig sampleHost { sampleAmbient with packageRepositoryUrl := none }
        (sampleOptions (some "examples") (some "development")) = .error .repoOfNull ∧
    ¬ ∃ cfg, getWebpackConfig sampleHost { sampleAmbient with packageRepositoryUrl := none }
        (sampleOptions (some "examples") (some "development")) = .ok cfg := by
  have h : getWebpackConfig sampleHost { sampleAmbient with packageRepositoryUrl := none }
      (sampleOptions (some "examples") (some "development")) = .error .repoOfNull := rfl
  refine ⟨h, ?_⟩
  rintro ⟨cfg, hc⟩
  rw [h] at hc
  cases hc

/-- C5, amended: in every returned configuration the first plugin is the DefinePlugin, and
the packageName and packageVersion properties of its argument are the JSON.stringify
values of npm_package_name and npm_package_version: undefined for an unset variable, and
otherwise a JSON string literal that parses back to the value of the variable, character
for character. -/
theorem definitions_package (H : Host) (A : Ambient) (O : Options) (cfg : Config)
    (hret : getWebpackConfig H A O = .ok cfg) :
    ∃ dv, cfg.plugins.head? = some (Plugin.DefinePlugin dv) ∧
      property dv "packageName" = some (jsonStringify A.packageName) ∧
      property dv "packageVersion" = some (jsonStringify A.packageVersion) ∧
      (∀ name, A.packageName = some name →
        ∃ text, property dv "packageName" = some (some text) ∧
          unquoteJSONString text = some name) ∧
      (∀ version, A.packageVersion = some version →
        ∃ text, property dv "packageVersion" = some (some text) ∧
          unquoteJSONString text = some version) ∧
      (A.packageName = none → property dv "packageName" = some none) ∧
      (A.packageVersion = none → property dv "packageVersion" = some none) := by
  obtain ⟨out, dv, -, hdv, rfl⟩ := getWebpackConfig_ok hret
  obtain ⟨repo, more, rfl⟩ := definedVar_ok_shape hdv
  obtain ⟨hn, hv⟩ := property_definedBase_package A repo more
  refine ⟨_, rfl, hn, hv, ?_, ?_, ?_, ?_⟩
  · intro name h
    exact ⟨quoteJSONString name, by rw [hn, h]; rfl, unquote_quoteJSONString name⟩
  · intro version h
    exact ⟨quoteJSONString version, by rw [hv, h]; rfl, unquote_quoteJSONString version⟩
  · intro h
    rw [hn, h]
    rfl
  · intro h
    rw [hv, h]
    rfl

/-- Witness of the amended C5 on the sample library production build. -/
theorem definitions_package_witness :
    ∃ cfg dv, getWebpackConfig sampleHost sampleAmbient
        (sampleOptions (some "library") (some "production")) = .ok cfg ∧
      cfg.plugins.head? = some (Plugin.DefinePlugin dv) ∧
      property dv "packageName" = some (some "\"react-ui-component-starter\"") ∧
      property dv "packageVersion" = some (some "\"0.1.0\"") := by
  obtain ⟨dv, h1, h2, h3, -⟩ := definitions_package sampleHost sampleAmbient
    (sampleOptions (some "library") (some "production")) _ rfl
  exact ⟨_, dv, rfl, h1, h2.trans (by decide), h3.trans (by decide)⟩

/-! ## The output path of a production examples build -/

/-- A path has at least one segment. -/
theorem splitSlash_ne_nil : ∀ p : List Char, splitSlash p ≠ []
  | [] => by simp [splitSlash]
  | c :: cs => by
    unfold splitSlash
    split
    · simp
    · split <;> simp

/-- The segments of two paths joined by a slash are the segments of the first followed by
the segments of the second. -/
theorem splitSlash_append : ∀ q n : List Char,
    splitSlash (q ++ '/' :: n) = splitSlash q ++ splitSlash n
  | [], n => by simp [splitSlash]
  | c :: cs, n => by
    have ih := splitSlash_append cs n
    show splitSlash (c :: (cs ++ '/' :: n)) = splitSlash (c :: cs) ++ splitSlash n
    rw [splitSlash, splitSlash, ih]
    by_cases hc : c = '/'
    · simp only [hc, if_true, List.cons_append]
    · simp only [hc, if_false]
      cases hs : splitSlash cs with
      | nil => exact absurd hs (splitSlash_ne_nil cs)
      | cons seg segs => rfl

/-- Joining the segments of a path by slashes gives the path back. -/
theorem joinSlash_splitSlash : ∀ p : List Char, joinSlash (splitSlash p) = p
  | [] => rfl
  | c :: cs => by
    have ih := joinSlash_splitSlash cs
    by_cases hc : c = '/'
    · simp only [splitSlash, hc, if_true]
      cases hs : splitSlash cs with
      | nil => exact absurd hs (splitSlash_ne_nil cs)
      | cons seg segs =>
        rw [hs] at ih
        simp only [joinSlash, List.nil_append, ih]
    · simp only [splitSlash, hc, if_false]
      cases hs : splitSlash cs with
      | nil => exact absurd hs (splitSlash_ne_nil cs)
      | cons seg segs =>
        rw [hs] at ih
        cases segs with
        | nil =>
          simp only [joinSlash] at ih ⊢
          rw [ih]
        | cons t rest =>
          simp only [joinSlash] at ih ⊢
          rw [← ih]
          rfl

/-- An ordinary segment is pushed on the stack. -/
theorem normStep_ordinary (a : Bool) (stack : List (List Char)) {seg : List Char}
    (h : OrdinarySegment seg) : normStep a stack seg = seg :: stack := by
  obtain ⟨h1, h2, h3⟩ := h
  simp [normStep, h1, h2, h3]

/-- Ordinary segments are all pushed on the stack. -/
theorem foldl_normStep_ordinary (a : Bool) : ∀ (segs : List (List Char))
    (stack : List (List Char)), (∀ seg ∈ segs, OrdinarySegment seg) →
    segs.foldl (normStep a) stack = segs.reverse ++ stack
  | [], _, _ => rfl
  | seg :: segs, stack, h => by
    rw [List.foldl_cons, normStep_ordinary a stack (h seg (List.mem_cons_self _ _)),
      foldl_normStep_ordinary a segs _ fun s hs => h s (List.mem_cons_of_mem _ hs)]
    simp

/-- Ordinary segments at the end of a path are kept, in order, at the end of the
normalised segments. -/
theorem normSegs_append_ordinary (a : Bool) (front segs : List (List Char))
    (h : ∀ seg ∈ segs, OrdinarySegment seg) :
    normSegs a (front ++ segs) = normSegs a front ++ segs := by
  simp [normSegs, List.foldl_append, foldl_normStep_ordinary a segs _ h]

/-- The join of segments ends with the join of any non-empty tail of them. -/
theorem joinSlash_append_suffix : ∀ (front segs : List (List Char)), segs ≠ [] →
    joinSlash segs <:+ joinSlash (front ++ segs)
  | [], _, _ => List.suffix_refl _
  | s :: front, segs, h => by
    obtain ⟨pre, hpre⟩ := joinSlash_append_suffix front segs h
    cases hfs : front ++ segs with
    | nil => simp [h] at hfs
    | cons t rest =>
      refine ⟨s ++ '/' :: pre, ?_⟩
      rw [List.cons_append, hfs, joinSlash, ← hfs, ← hpre]
      simp

/-- A path that ends with a slash has an empty last segment. -/
theorem nil_mem_splitSlash_of_trailing {n : List Char} (h : n.getLast? = some '/') :
    [] ∈ splitSlash n := by
  obtain ⟨xs, rfl⟩ : ∃ xs, n = xs ++ ['/'] := by
    rcases List.eq_nil_or_concat n with rfl | ⟨xs, x, rfl⟩
    · simp at h
    · simp at h
      exact ⟨xs, by rw [h]; simp⟩
  rw [splitSlash_append]
  simp [splitSlash]

/-- Normalising a path that ends with a slash and a plain name gives a path that ends with
the name. -/
theorem posixNormalize_suffix (q n : List Char)
    (h : ∀ seg ∈ splitSlash n, OrdinarySegment seg) :
    n <:+ posixNormalize (q ++ '/' :: n) := by
  have hn : n ≠ [] := by
    rintro rfl
    exact (h [] (by simp [splitSlash])).1 rfl
  have hp : q ++ '/' :: n ≠ [] := by simp
  have htrail : ¬ (q ++ '/' :: n).getLast? = some '/' := by
    intro ht
    have : n.getLast? = some '/' := by
      rw [← ht]
      rw [show q ++ '/' :: n = (q ++ ['/']) ++ n by simp]
      exact (List.getLast?_append_of_ne_nil _ hn).symm
    exact (h [] (nil_mem_splitSlash_of_trailing this)).1 rfl
  obtain ⟨pre, hpre⟩ : n <:+ joinSlash (normSegs
      (!decide ((q ++ '/' :: n).head? = some '/')) (splitSlash (q ++ '/' :: n))) := by
    rw [splitSlash_append, normSegs_append_ordinary _ _ _ h]
    have := joinSlash_append_suffix (normSegs
      (!decide ((q ++ '/' :: n).head? = some '/')) (splitSlash q)) (splitSlash n)
      (splitSlash_ne_nil n)
    rwa [joinSlash_splitSlash] at this
  have hbody : joinSlash (normSegs
      (!decide ((q ++ '/' :: n).head? = some '/')) (splitSlash (q ++ '/' :: n))) ≠ [] := by
    rw [← hpre]
    simp [hn]
  unfold posixNormalize
  simp only [if_neg hp, if_neg hbody, if_neg htrail]
  split
  · exact ⟨'/' :: pre, by rw [← hpre]; rfl⟩
  · exact ⟨pre, hpre⟩

/-- On a POSIX platform the path joined from a directory and `build/<name>` ends with the
name when the name is plain. -/
theorem posixJoin_build_suffix (root name : String) (h : PlainName name) :
    name.data <:+ (posixJoin root ("build/" ++ name)).data := by
  have hb : ("build/" ++ name).data = ['b', 'u', 'i', 'l', 'd'] ++ '/' :: name.data := rfl
  have hne : ("build/" ++ name).data ≠ [] := by rw [hb]; simp
  unfold posixJoin
  by_cases hr : root.data = []
  · simp only [if_pos hr, if_neg hne]
    rw [hb]
    exact posixNormalize_suffix _ _ h
  · simp only [if_neg hr, if_neg hne]
    rw [hb, show root.data ++ '/' :: (['b', 'u', 'i', 'l', 'd'] ++ '/' :: name.data)
      = (root.data ++ '/' :: ['b', 'u', 'i', 'l', 'd']) ++ '/' :: name.data by simp]
    exact posixNormalize_suffix _ _ h

/-- Counterexample to C2: with npm_package_name set to "..", the production examples build
on a POSIX host returns a configuration whose output.path is the working directory
itself, which does not end with the package name. -/
theorem output_path_not_name :
    ∃ cfg, getWebpackConfig sampleHost { sampleAmbient with packageName := some ".." }
        (sampleOptions (some "examples") (some "production")) = .ok cfg ∧
      cfg.output.path = "/work" ∧
      ¬ ("..".data <:+ cfg.output.path.data) :=
  ⟨_, rfl, by decide, by decide⟩

/-- C2, amended: for task "examples" and env.NODE_ENV "production", every returned
configuration has output.filename "[name]-[hash:16].js", which holds the hash placeholder
"[hash:16]" (the placeholder "[contenthash:16]" is in the stylesheet file name
"[name]-[contenthash:16].css" handed to ExtractTextPlugin), and output.path the join of
the working directory with "build/" followed by the package name; with the
POSIX path.join this path ends with the package name whenever the name is plain, that is,
none of its segments between slashes is empty, "." or "..". -/
theorem output_examples_production (H : Host) (A : Ambient) (O : Options) (cfg : Config)
    (htask : O.task = some "examples") (henv : O.env.NODE_ENV = some "production")
    (hret : getWebpackConfig H A O = .ok cfg) :
    cfg.output.filename = "[name]-[hash:16].js" ∧
    "[hash:16]".data <:+: cfg.output.filename.data ∧
    ¬ "[contenthash".data <:+: cfg.output.filename.data ∧
    Plugin.ExtractTextPlugin "[name]-[contenthash:16].css" ∈ cfg.plugins ∧
    cfg.output.path = H.pathJoin A.root ("build/" ++ interpolate A.packageName) ∧
    (∀ name, H.pathJoin = posixJoin → A.packageName = some name → PlainName name →
      name.data <:+ cfg.output.path.data) := by
  obtain ⟨out, dv, hout, -, rfl⟩ := getWebpackConfig_ok hret
  have he : isExamples O = true := (isExamples_iff O).2 htask
  have hp : isProduction O = true := (isProduction_iff O).2 henv
  simp only [output, he, hp, if_true, Except.ok.injEq] at hout
  subst hout
  have hinfix : "[hash:16]".data <:+: "[name]-[hash:16].js".data := by decide
  have hnot : ¬ "[contenthash".data <:+: "[name]-[hash:16].js".data := by decide
  refine ⟨rfl, hinfix, hnot, ?_, rfl, ?_⟩
  · simp [plugins, hp, he, cssFilename]
  · intro name hjoin hname hplain
    show name.data <:+ (H.pathJoin A.root ("build/" ++ interpolate A.packageName)).data
    rw [hjoin, hname]
    exact posixJoin_build_suffix A.root name hplain

/-- Witness of the amended C2 on the sample production examples build. -/
theorem output_examples_production_witness :
    ∃ cfg, getWebpackConfig sampleHost sampleAmbient
        (sampleOptions (some "examples") (some "production")) = .ok cfg ∧
      cfg.output.filename = "[name]-[hash:16].js" ∧
      cfg.output.path = "/work/build/react-ui-component-starter" ∧
      "react-ui-component-starter".data <:+ cfg.output.path.data :=
  have h := output_examples_production sampleHost sampleAmbient
    (sampleOptions (some "examples") (some "production")) _ rfl rfl rfl
  ⟨_, rfl, h.1, h.2.2.2.2.1.trans (by decide), h.2.2.2.2.2 _ rfl rfl (by decide)⟩

end GetWebpackConfig
